import Mathlib

/-!
Verification development for the bucky epidemic-forecast model core.

Each section embeds part of the source (src/bucky/...) as Lean definitions:
pure tensor arithmetic over ℚ where the source is plain float arithmetic,
and over ℝ (with an explicit IEEE-style nonfinite-value surrogate `FR`)
where the source relies on transcendental functions (exp/log/Gamma) or on
float nonfiniteness (`xp.isfinite` masks).  Arrays are embedded as
functions out of `Fin`/`ℕ` index types; the time axis is ℕ with an
explicit length, so the python index `[-d]` becomes `T - d`.

Layout: all definitions first, then all theorems.
-/

namespace Bucky

/-! ## SpatialAggregator: `buckyGraphData.sum_adm1` (src/bucky/model/graph.py
lines 54-62 and src/bucky/graph.py lines 54-61).

`xp.scatter_add(out, idx, vals)` accumulates `vals i` into `out (idx i)`
for every node index `i` (unordered accumulation, `np.add.at` semantics);
on the zero-initialised buffer of `sum_adm1` the entry of the result at a
group `g` is therefore the sum of `vals` over the preimage of `g`.
Trailing axes of the source arrays are pointwise and are elided. -/

def scatter_add {N M : ℕ} (out : Fin M → ℚ) (idx : Fin N → Fin M) (vals : Fin N → ℚ) :
    Fin M → ℚ :=
  fun g => out g + ∑ i, if idx i = g then vals i else 0

/-- `sum_adm1`: adm1 (group-level) sum of an adm2 (node-level) array via the
fixed `adm1_id` map; the output is allocated as `xp.zeros` of length
`max_adm1 + 1` (here: the codomain `Fin M`), so groups with no member keep
the exact additive zero of the buffer. -/
def sum_adm1 {N M : ℕ} (adm1_id : Fin N → Fin M) (adm2_arr : Fin N → ℚ) : Fin M → ℚ :=
  scatter_add (fun _ => 0) adm1_id adm2_arr

/-! ## HistoricalSeries: rolling means (src/bucky/model/graph.py lines 95-115,
`_read_node_attr` lines 160-174).

A per-node time series is a function `ℕ → ℚ`.  `_read_node_attr` with
`a_min=0` clips the raw cumulative series at 0, and clips its first
difference at 0 as well.  `rolling_mean` itself lives in
src/bucky/util/rolling_mean.py which is not part of the sources given. -/

/-- First difference along the time axis (`xp.diff(·, axis=0)`). -/
def diffT (f : ℕ → ℚ) : ℕ → ℚ := fun t => f (t + 1) - f t

/-- Modelled from the spec: `rolling_mean` (src/bucky/util/rolling_mean.py is
not under src/) — the arithmetic 7-day (window `w`) rolling mean along the
time axis, per spec §3: "a 7-day rolling mean is computed on the cumulative
series".  Window `t` covers the `w` consecutive samples starting at `t`. -/
def rolling_mean (w : ℕ) (f : ℕ → ℚ) : ℕ → ℚ :=
  fun t => (∑ s ∈ Finset.range w, f (t + s)) / w

/-- Cumulative case history of one node: the raw graph attribute clipped at
`a_min = 0` (`_read_node_attr(G, "case_hist", diff=True, a_min=0.0)`). -/
def cum_hist (raw : ℕ → ℚ) : ℕ → ℚ := fun t => max 0 (raw t)

/-- Incident history of one node: clipped first difference of the clipped
cumulative history (the `diff=True` branch of `_read_node_attr`). -/
def inc_hist (raw : ℕ → ℚ) : ℕ → ℚ := fun t => max 0 (diffT (cum_hist raw) t)

/-- `rolling_cum_cases` / `rolling_cum_deaths`: rolling mean of the clipped
cumulative series (`self.rolling_mean_func_cum(self.cum_case_hist)`). -/
def rolling_cum (raw : ℕ → ℚ) : ℕ → ℚ := rolling_mean 7 (cum_hist raw)

/-- `rolling_inc_cases` / `rolling_inc_deaths`: first difference of the
rolled cumulative series (`xp.diff(self.rolling_cum_cases, axis=0)`); the
commented-out alternative that would smooth the incidence directly is not
executed. -/
def rolling_inc (raw : ℕ → ℚ) : ℕ → ℚ := diffT (rolling_cum raw)

/-! ## ODEModel: `buckyModelCovid.RHS_func` (src/bucky/model/main.py lines
567-678).

Modelled from the spec: the state container `buckyState`
(src/bucky/model/state.py is not under src/).  Per spec §4.4 and the usage
inside `RHS_func`, the state tensor has one bin per compartment per
(age group, node): S, an Erlang E-chain with `y.En = en+1` stages,
Ia/I/Ic-chains with `y.Im = im+1` stages each, an Rh-chain with
`y.Rhn = rhn+1` stages, R, D and the two pure accumulators incH and incC;
`y.Itot` covers all infectious bins (the Ia, I and Ic chains).  A state is
a function from a compartment-bin index and an (age, node) pair to ℚ; the
solver's flattened vector is index-aligned with this, so the elementwise
out-of-bounds masks of the source translate pointwise. -/

inductive Comp (en im rhn : ℕ) where
  | S
  | E (j : Fin (en + 1))
  | Ia (j : Fin (im + 1))
  | I (j : Fin (im + 1))
  | Ic (j : Fin (im + 1))
  | Rh (j : Fin (rhn + 1))
  | R
  | D
  | incH
  | incC
deriving DecidableEq

/-- The state tensor (compartment bin × age × node). -/
def BState (en im rhn A N : ℕ) : Type := Comp en im rhn → Fin A → Fin N → ℚ

/-- The per-trial parameter bag as consumed by `RHS_func` (lines 595-602).
All rate fields carry the broadcast (age, node) shape they have after
`reset`; `rel_inf_asym` is a scalar constant. -/
structure Params (A N : ℕ) where
  BETA : Fin A → Fin N → ℚ
  F_eff : Fin A → Fin N → ℚ
  H : Fin A → Fin N → ℚ
  THETA : Fin A → Fin N → ℚ
  GAMMA : Fin A → Fin N → ℚ
  GAMMA_H : Fin A → Fin N → ℚ
  SIGMA : Fin A → Fin N → ℚ
  SYM_FRAC : Fin A → Fin N → ℚ
  CASE_REPORT : Fin A → Fin N → ℚ
  rel_inf_asym : ℚ

/-- Force of infection (lines 627-638): `I_tot` is the population-weighted
sum over all infectious bins with asymptomatics down-weighted by
`rel_inf_asym`; it is diffused through the mobility matrix
(`I_tot @ Aij`, identical to the sparse branch `(Aij.T * I_tot.T).T`),
mixed through the contact matrix (`Cij @ ...`), scaled by the susceptible
fraction and normalised by `Nij`.  `Aij` and `Cij` are the effective
matrices after the optional NPI damping of lines 604-619 (the claims below
quantify over arbitrary effective matrices). -/
def beta_mat {en im rhn A N : ℕ} (Nij : Fin A → Fin N → ℚ) (Aij : Fin N → Fin N → ℚ)
    (Cij : Fin A → Fin A → ℚ) (rel_inf_asym : ℚ) (y : BState en im rhn A N) :
    Fin A → Fin N → ℚ :=
  fun a n =>
    y .S a n *
        (∑ b, Cij a b *
          (∑ m, ((∑ j, Nij b m * (y (.Ia j) b m + y (.I j) b m + y (.Ic j) b m)) -
              (1 - rel_inf_asym) * ∑ j, Nij b m * y (.Ia j) b m) * Aij m n)) /
      Nij a n

/-- Helper for the Erlang chains: the source assigns the first stage and
the remaining stages separately (`dy.E[0] = ...; dy.E[1:] = ...`); `chain
first rest` is the stage-indexed derivative assembled from the two. -/
def chain {k : ℕ} (first : ℚ) (rest : Fin k → ℚ) : Fin (k + 1) → ℚ :=
  Fin.cons first rest

/-- The compartmental derivative (lines 640-669), evaluated on an already
clipped state.  The chain-length-scaled rates of lines 597-600
(`THETA = y.Rhn * par.THETA` etc.) appear inline. -/
def RHS_core {en im rhn A N : ℕ} (par : Params A N) (Nij : Fin A → Fin N → ℚ)
    (Aij : Fin N → Fin N → ℚ) (Cij : Fin A → Fin A → ℚ) (y : BState en im rhn A N) :
    BState en im rhn A N :=
  fun c a n =>
    match c with
    | .S => -par.BETA a n * beta_mat Nij Aij Cij par.rel_inf_asym y a n
    | .E j =>
        chain
          (par.BETA a n * beta_mat Nij Aij Cij par.rel_inf_asym y a n -
            ((en : ℚ) + 1) * par.SIGMA a n * y (.E 0) a n)
          (fun j' => ((en : ℚ) + 1) * par.SIGMA a n *
            (y (.E j'.castSucc) a n - y (.E j'.succ) a n)) j
    | .Ia j =>
        chain
          ((1 - par.SYM_FRAC a n) * (((en : ℚ) + 1) * par.SIGMA a n) *
              y (.E (Fin.last en)) a n -
            ((im : ℚ) + 1) * par.GAMMA a n * y (.Ia 0) a n)
          (fun j' => ((im : ℚ) + 1) * par.GAMMA a n *
            (y (.Ia j'.castSucc) a n - y (.Ia j'.succ) a n)) j
    | .I j =>
        chain
          (par.SYM_FRAC a n * (1 - par.H a n) * (((en : ℚ) + 1) * par.SIGMA a n) *
              y (.E (Fin.last en)) a n -
            ((im : ℚ) + 1) * par.GAMMA a n * y (.I 0) a n)
          (fun j' => ((im : ℚ) + 1) * par.GAMMA a n *
            (y (.I j'.castSucc) a n - y (.I j'.succ) a n)) j
    | .Ic j =>
        chain
          (par.SYM_FRAC a n * par.H a n * (((en : ℚ) + 1) * par.SIGMA a n) *
              y (.E (Fin.last en)) a n -
            ((im : ℚ) + 1) * par.GAMMA_H a n * y (.Ic 0) a n)
          (fun j' => ((im : ℚ) + 1) * par.GAMMA_H a n *
            (y (.Ic j'.castSucc) a n - y (.Ic j'.succ) a n)) j
    | .Rh j =>
        chain
          (((im : ℚ) + 1) * par.GAMMA_H a n * y (.Ic (Fin.last im)) a n -
            ((rhn : ℚ) + 1) * par.THETA a n * y (.Rh 0) a n)
          (fun j' => ((rhn : ℚ) + 1) * par.THETA a n *
            (y (.Rh j'.castSucc) a n - y (.Rh j'.succ) a n)) j
    | .R =>
        ((im : ℚ) + 1) * par.GAMMA a n *
            (y (.I (Fin.last im)) a n + y (.Ia (Fin.last im)) a n) +
          (1 - par.F_eff a n) * (((rhn : ℚ) + 1) * par.THETA a n) *
            y (.Rh (Fin.last rhn)) a n
    | .D =>
        par.F_eff a n * (((rhn : ℚ) + 1) * par.THETA a n) * y (.Rh (Fin.last rhn)) a n
    | .incH => ((im : ℚ) + 1) * par.GAMMA_H a n * y (.Ic (Fin.last im)) a n
    | .incC =>
        par.SYM_FRAC a n * par.CASE_REPORT a n * (((en : ℚ) + 1) * par.SIGMA a n) *
          y (.E (Fin.last en)) a n

/-- `xp.clip(·, a_min=0, a_max=1)` on one entry. -/
def clip01 (x : ℚ) : ℚ := min 1 (max 0 x)

/-- Line 582: the state is clipped into [0,1] before the derivative is
evaluated (the out-of-bounds masks of lines 574-575 are taken on the
unclipped incoming vector). -/
def clipState {en im rhn A N : ℕ} (y : BState en im rhn A N) : BState en im rhn A N :=
  fun c a n => clip01 (y c a n)

/-- The model derivative as evaluated by lines 579-672: the compartmental
derivative of the clipped state, before the one-sided derivative clamp. -/
def RHS_unclamped {en im rhn A N : ℕ} (par : Params A N) (Nij : Fin A → Fin N → ℚ)
    (Aij : Fin N → Fin N → ℚ) (Cij : Fin A → Fin A → ℚ) (y : BState en im rhn A N) :
    BState en im rhn A N :=
  RHS_core par Nij Aij Cij (clipState y)

/-- `RHS_func` (lines 567-678): evaluate the derivative on the clipped
state, then zero every component whose incoming state value is at or below
0 with a negative derivative, or at or above 1 with a positive derivative
(lines 674-676; the two `xp.where` masks commute into this if-chain since
a derivative zeroed by the first mask cannot satisfy the second). -/
def RHS_func {en im rhn A N : ℕ} (par : Params A N) (Nij : Fin A → Fin N → ℚ)
    (Aij : Fin N → Fin N → ℚ) (Cij : Fin A → Fin A → ℚ) (y : BState en im rhn A N) :
    BState en im rhn A N :=
  fun c a n =>
    if y c a n ≤ 0 ∧ RHS_unclamped par Nij Aij Cij y c a n < 0 then 0
    else if 1 ≤ y c a n ∧ 0 < RHS_unclamped par Nij Aij Cij y c a n then 0
    else RHS_unclamped par Nij Aij Cij y c a n

/-- Total derivative over every compartment except D and the pure
accumulators incH and incC, summed over all ages and nodes. -/
def nonD_total {en im rhn A N : ℕ} (dy : BState en im rhn A N) : ℚ :=
  ∑ a, ∑ n,
    (dy .S a n + (∑ j, dy (.E j) a n) + (∑ j, dy (.Ia j) a n) + (∑ j, dy (.I j) a n) +
      (∑ j, dy (.Ic j) a n) + (∑ j, dy (.Rh j) a n) + dy .R a n)

/-- Concrete parameter bag for the witnesses: one age group, one node,
one stage per chain, `F_eff = 0`. -/
def par1 : Params 1 1 where
  BETA := fun _ _ => 1
  F_eff := fun _ _ => 0
  H := fun _ _ => 1 / 2
  THETA := fun _ _ => 1
  GAMMA := fun _ _ => 1
  GAMMA_H := fun _ _ => 1
  SIGMA := fun _ _ => 1
  SYM_FRAC := fun _ _ => 1 / 2
  CASE_REPORT := fun _ _ => 1
  rel_inf_asym := 1

/-- Concrete population tensor for the witnesses. -/
def Nij1 : Fin 1 → Fin 1 → ℚ := fun _ _ => 1

/-- Concrete mobility matrix for the witnesses. -/
def Aij1 : Fin 1 → Fin 1 → ℚ := fun _ _ => 1

/-- Concrete contact matrix for the witnesses. -/
def Cij1 : Fin 1 → Fin 1 → ℚ := fun _ _ => 1

/-- Concrete strictly interior state for the witnesses. -/
def y1 : BState 0 0 0 1 1 := fun _ _ _ => 1 / 2

/-! ## TrialOrchestrator: trial-scoped rejection and the retry loop
(src/bucky/model/main.py lines 36-39, 473-475, 704-727, 815-830,
993-1013). -/

/-- The single trial-scoped exception kind (`SimulationException`,
lines 36-39). -/
inductive SimulationException where
  | mk
deriving DecidableEq

/-- Historical death data of the loaded graph as used by the rejection
check: `Th` is the number of history rows, series are (time, node). -/
structure GraphHist (N : ℕ) where
  Th : ℕ
  inc_death_hist : ℕ → Fin N → ℚ
  cum_death_hist : ℕ → Fin N → ℚ

/-- Line 817: the prepended seam value — the minimum of the last two
cumulative-death history rows per node. -/
def prepend_deaths {N : ℕ} (g : GraphHist N) : Fin N → ℚ :=
  fun n => min (g.cum_death_hist (g.Th - 2) n) (g.cum_death_hist (g.Th - 1) n)

/-- Line 818: reconstructed daily deaths — the first difference along the
time axis of the simulated cumulative deaths `outD` (node-level, already
age-collapsed and population-rescaled), with the seam value prepended. -/
def daily_deaths {N : ℕ} (g : GraphHist N) (outD : ℕ → Fin N → ℚ) : ℕ → Fin N → ℚ :=
  fun t n => if t = 0 then outD 0 n - prepend_deaths g n else outD t n - outD (t - 1) n

/-- Line 822: mean over the first 3 simulated days (columns 1:4) of the
node-summed daily deaths. -/
def init_inc_death_mean {N : ℕ} (dd : ℕ → Fin N → ℚ) : ℚ :=
  (∑ t ∈ Finset.range 3, ∑ n, dd (t + 1) n) / 3

/-- Line 823: mean over the trailing 7 history days of the node-summed
incident deaths. -/
def hist_inc_death_mean {N : ℕ} (g : GraphHist N) : ℚ :=
  (∑ d ∈ Finset.range 7, ∑ n, g.inc_death_hist (g.Th - 7 + d) n) / 7

/-- Line 825: the multiplicative rejection band. -/
def inc_death_rejection_fac : ℚ := 2

/-- The death-band section of `postprocess_run` (lines 815-830): with
rejection enabled, raise the trial-scoped exception when the mean
reconstructed incident deaths of the first 3 simulated days are more than
`inc_death_rejection_fac` times above or below the trailing 7-day
historical mean; otherwise return the reconstructed daily deaths. -/
def postprocess_run {N : ℕ} (reject_runs : Bool) (g : GraphHist N)
    (outD : ℕ → Fin N → ℚ) : Except SimulationException (ℕ → Fin N → ℚ) :=
  if reject_runs = true ∧
      (init_inc_death_mean (daily_deaths g outD) >
          inc_death_rejection_fac * hist_inc_death_mean g ∨
        inc_death_rejection_fac * init_inc_death_mean (daily_deaths g outD) <
          hist_inc_death_mean g) then
    .error .mk
  else .ok (daily_deaths g outD)

/-- The Monte-Carlo accept/reject loop of `run_multiple` / `main`
(lines 710-724 and 994-1013): `trial k` is the outcome of the trial run
with the k-th spawned seed; a trial that raises `SimulationException` is
skipped (the next seed is tried) and the loop continues until `need`
trials are accepted.  The unbounded `while` is given explicit `fuel`. -/
def run_multiple {α : Type} (trial : ℕ → Except SimulationException α) :
    ℕ → ℕ → ℕ → List α
  | _, _, 0 => []
  | 0, _, _ + 1 => []
  | need + 1, k, fuel + 1 =>
    match trial k with
    | .ok f => f :: run_multiple trial need (k + 1) fuel
    | .error _ => run_multiple trial (need + 1) (k + 1) fuel

/-! ## IEEE-float surrogate.

Where a claim depends on float nonfiniteness (`xp.isfinite`,
divide-by-zero, `log` of zero), values are elements of `FR`: either a
finite real or one of the nonfinite values `inf`, `-inf`, `nan`.
Rounding, overflow and the sign of zero are not modelled (no claim under
verification depends on them). -/

inductive FR where
  | fin (x : ℝ)
  | pinf
  | ninf
  | nan

/-- `xp.isfinite` on one value. -/
def FR.isFinite : FR → Bool
  | .fin _ => true
  | _ => false

/-- The validation step of `reset` (lines 473-475): raise the trial-scoped
exception exactly when the assembled initial state tensor (flattened here
to a list of its entries) contains a non-finite value, else return the
state unchanged.  This is the only `raise` executed in `reset`. -/
def reset (state : List FR) : Except SimulationException (List FR) :=
  if state.any fun v => !v.isFinite then .error .mk else .ok state

/-- `run_once` (lines 680-702): reset, then integrate; a validation
failure in `reset` propagates out of the trial as the exception. -/
def run_once {α : Type} (state : List FR) (integrate : List FR → α) :
    Except SimulationException α :=
  (reset state).map integrate

/-- Concrete graph history for the C5 witness. -/
def gW : GraphHist 1 := ⟨7, fun _ _ => 1, fun _ _ => 0⟩

/-- Concrete simulated cumulative deaths for the C5 witness. -/
def outDW : ℕ → Fin 1 → ℚ := fun t _ => 10 * t

/-- Concrete trial-outcome stream for the C5/C6 witnesses: the first seed
fails with the trial-scoped exception, later seeds succeed. -/
def trialW : ℕ → Except SimulationException ℕ :=
  fun k => if k = 0 then .error .mk else .ok 7

/-! ## `truncnorm` (src/bucky/util/distributions.py lines 68-96).

Rejection sampling: start from a normal draw, and while any element lies
outside the open interval `(a_min, a_max)` redraw exactly the invalid
elements.  The normal draws are modelled as the explicit streams `init`
(the first draw) and `fresh r` (the redraw used in round `r`); `None`
bounds (`±inf`) are `Option.none`.  The unbounded `while True` is given
explicit fuel; `none` stands for non-termination within the fuel. -/

/-- The elementwise validity test `(ret > a_min) & (ret < a_max)`. -/
def truncnorm_ok (a_min a_max : Option ℚ) (x : ℚ) : Bool :=
  (match a_min with
    | none => true
    | some lo => decide (lo < x)) &&
  (match a_max with
    | none => true
    | some hi => decide (x < hi))

/-- The rejection loop: `valid.all()` returns the current array, otherwise
the invalid entries are replaced with the round's fresh draws. -/
def truncnorm_loop {n : ℕ} (fresh : ℕ → Fin n → ℚ) (a_min a_max : Option ℚ) :
    (Fin n → ℚ) → ℕ → ℕ → Option (Fin n → ℚ)
  | _, _, 0 => none
  | ret, r, fuel + 1 =>
    if ((List.ofFn fun i => truncnorm_ok a_min a_max (ret i)).all fun b => b) = true then
      some ret
    else
      truncnorm_loop fresh a_min a_max
        (fun i => if truncnorm_ok a_min a_max (ret i) = true then ret i else fresh r i)
        (r + 1) fuel

/-- `truncnorm` with the draws made explicit. -/
def truncnorm {n : ℕ} (init : Fin n → ℚ) (fresh : ℕ → Fin n → ℚ)
    (a_min a_max : Option ℚ) (fuel : ℕ) : Option (Fin n → ℚ) :=
  truncnorm_loop fresh a_min a_max init 0 fuel

/-- Concrete first draw for the C10 witness. -/
def initW : Fin 1 → ℚ := fun _ => 1 / 2

/-- Concrete redraw stream for the C10 witness. -/
def freshW : ℕ → Fin 1 → ℚ := fun _ _ => 1 / 2

/-! ## Calibrated ascertainment sampling (src/bucky/util/distributions.py
lines 9-29 and src/bucky/model/main.py lines 341-346).

Real powers are `Real.rpow` (written `x ^ y` for real `y`), which agrees
with numpy `**` on the parameter range exercised by these claims
(`0.0 ** 0.0 = 1.0`, `0.0 ** p = 0.0` for `p > 0`, positive base
arbitrary); the `xp.real` cast inside `approx_betaincinv` is the identity
there.  The uniform draw `u = xp.random.random_sample(...)` of
`approx_mPERT_sample` is an explicit argument, one entry at a time. -/

/-- Inverse CDF of the Kumaraswamy distribution (lines 9-11). -/
noncomputable def kumaraswamy_invcdf (a b u : ℝ) : ℝ :=
  (1 - (1 - u) ^ (1 / b)) ^ (1 / a)

/-- `approx_betaincinv` (lines 14-18): Kumaraswamy with the shape
parameters converted so means and modes agree. -/
noncomputable def approx_betaincinv (alp1 alp2 u : ℝ) : ℝ :=
  kumaraswamy_invcdf alp1
    (((alp1 - 1) ^ (1 - alp1) * (alp1 + alp2 - 2) ^ alp1 + 1) / alp1) u

/-- `approx_mPERT_sample` (lines 21-29). -/
noncomputable def approx_mPERT_sample (mu a b gamma u : ℝ) : ℝ :=
  (b - a) * approx_betaincinv (1 + gamma * ((mu - a) / (b - a)))
    (1 + gamma * ((b - mu) / (b - a))) u + a

/-- One entry of `self.case_reporting` as drawn in `reset`
(main.py lines 341-346) from the entry `cr` of the underlying reporting
estimate: `approx_mPERT_sample(mu=clip(cr, 0.2, 1.0),
a=clip(0.8*cr, 0.2, None), b=clip(1.2*cr, None, 1.0), gamma=50.0)`. -/
noncomputable def case_reporting_draw (cr u : ℝ) : ℝ :=
  approx_mPERT_sample (min 1 (max 0.2 cr)) (max 0.2 (0.8 * cr)) (min 1 (1.2 * cr)) 50 u

/-- The uniform draw of the C8 counterexample: `1 - 2⁻⁵¹`, a legal value
of `random_sample` (which ranges over [0,1)). -/
noncomputable def u_cex : ℝ := 1 - (1 / 2 : ℝ) ^ (51 : ℝ)

/-! ## Arithmetic on the float surrogate `FR`.

IEEE semantics on the finite/±inf/NaN lattice: addition with
`inf + (-inf) = NaN` and NaN absorption; division with `x/0 = ±inf` by the
sign of a nonzero numerator and `0/0 = NaN` (the sign of zero itself is
not modelled); `log 0 = -inf`, `log` of a negative is NaN; `exp(-inf) = 0`.
Rounding and overflow are not modelled, so `FR.add` is exactly associative
and commutative and finite sums are `Finset.sum`. -/

noncomputable def FR.add : FR → FR → FR
  | .nan, _ => .nan
  | _, .nan => .nan
  | .pinf, .ninf => .nan
  | .ninf, .pinf => .nan
  | .pinf, _ => .pinf
  | _, .pinf => .pinf
  | .ninf, _ => .ninf
  | _, .ninf => .ninf
  | .fin a, .fin b => .fin (a + b)

noncomputable instance : Zero FR := ⟨.fin 0⟩

noncomputable instance : Add FR := ⟨FR.add⟩

noncomputable instance : AddCommMonoid FR where
  add_assoc a b c := by
    cases a <;> cases b <;> cases c <;>
      simp [show ∀ x y : FR, x + y = FR.add x y from fun _ _ => rfl, FR.add, add_assoc]
  zero_add a := by
    cases a <;>
      simp [show ∀ x y : FR, x + y = FR.add x y from fun _ _ => rfl,
        show (0 : FR) = .fin 0 from rfl, FR.add]
  add_zero a := by
    cases a <;>
      simp [show ∀ x y : FR, x + y = FR.add x y from fun _ _ => rfl,
        show (0 : FR) = .fin 0 from rfl, FR.add]
  add_comm a b := by
    cases a <;> cases b <;>
      simp [show ∀ x y : FR, x + y = FR.add x y from fun _ _ => rfl, FR.add, add_comm]
  nsmul := nsmulRec

/-- Sum over the day axis of a stacked estimate (`xp.sum`/`xp.mean`
numerator). -/
noncomputable def FR.sumF {k : ℕ} (f : Fin k → FR) : FR := ∑ i, f i

/-- `xp.mean` along an axis of length `k`: the float class of the sum is
preserved by the division by `k` (inf/k = inf, NaN/k = NaN). -/
noncomputable def FR.mean {k : ℕ} (f : Fin k → FR) : FR :=
  match FR.sumF f with
  | .fin x => .fin (x / k)
  | v => v

/-- Float division of two finite values. -/
noncomputable def fdiv (num den : ℝ) : FR :=
  if den ≠ 0 then .fin (num / den)
  else if 0 < num then .pinf
  else if num < 0 then .ninf
  else .nan

/-- Float division on `FR` (for quotients whose operands may already be
nonfinite): NaN absorbs, `fin/±inf = 0`, `±inf/fin` keeps the sign rule,
`inf/inf = NaN`. -/
noncomputable def FR.div : FR → FR → FR
  | .nan, _ => .nan
  | _, .nan => .nan
  | .fin a, .fin b => fdiv a b
  | .fin _, .pinf => .fin 0
  | .fin _, .ninf => .fin 0
  | .pinf, .fin b => if 0 ≤ b then .pinf else .ninf
  | .ninf, .fin b => if 0 ≤ b then .ninf else .pinf
  | .pinf, .pinf => .nan
  | .pinf, .ninf => .nan
  | .ninf, .pinf => .nan
  | .ninf, .ninf => .nan

/-- `xp.log` on one value. -/
noncomputable def FR.flog : FR → FR
  | .fin x => if 0 < x then .fin (Real.log x) else if x = 0 then .ninf else .nan
  | .pinf => .pinf
  | .ninf => .nan
  | .nan => .nan

/-- `xp.exp` on one value. -/
noncomputable def FR.fexp : FR → FR
  | .fin x => .fin (Real.exp x)
  | .pinf => .pinf
  | .ninf => .fin 0
  | .nan => .nan

/-! ## Estimators: `estimate_Rt` (src/bucky/model/estimation.py lines
4-66).

The time axis has `T` rows (the length of `rolling_inc_cases` after the
rolling/diff transforms), indexed 0..T-1, so the python `[-d]` is row
`T - d` and `[:-d]` is rows 0..T-d-1. -/

/-- The support grid of the renewal kernel (lines 22-23):
`x = arange(-1, t_max-1); x[0] = 0`. -/
noncomputable def renewal_x (t : ℕ) : ℝ := if t = 0 then 0 else (t : ℝ) - 1

/-- The unnormalised Gamma(shape `k`, scale `Ts/k`) density on the grid
(line 24); real powers are `Real.rpow`, matching numpy `**` here
(`0.0 ** 0.0 = 1.0`). -/
noncomputable def renewal_w_raw (k Ts : ℝ) (t : ℕ) : ℝ :=
  1 / (Real.Gamma k * (Ts / k) ^ k) * renewal_x t ^ (k - 1) *
    Real.exp (-renewal_x t / (Ts / k))

/-- Lines 25-26: `w = w / (1 - w); w = w[::-1]` — the transformed kernel
read in reversed order. -/
noncomputable def renewal_kernel (k Ts : ℝ) (T : ℕ) (t : ℕ) : ℝ :=
  renewal_w_raw k Ts (T - 1 - t) / (1 - renewal_w_raw k Ts (T - 1 - t))

/-- Line 13: `rolling_case_hist = g_data.rolling_inc_cases /
params["CASE_REPORT"]`. -/
noncomputable def rt_case_hist {N : ℕ} (rolling_inc : ℕ → Fin N → ℝ)
    (case_report : Fin N → ℝ) : ℕ → Fin N → ℝ :=
  fun t n => rolling_inc t n / case_report n

/-- Line 15: `tot_case_hist = (g_data.Aij.A.T * rolling_case_hist.T).T`,
the (sparse) matrix product `Aij.T @ rch.T` transposed:
`tot[t, n] = Σ_m Aij[m, n] * rch[t, m]`. -/
noncomputable def rt_tot_hist {N : ℕ} (Aij : Fin N → Fin N → ℝ)
    (rch : ℕ → Fin N → ℝ) : ℕ → Fin N → ℝ :=
  fun t n => ∑ m, Aij m n * rch t m

/-- One trailing day's renewal ratio at one location (lines 34-35):
`hist[-d] / Σ_t w[d:][t] · tot[:-d][t]` as a float value. -/
noncomputable def rt_ratio (T : ℕ) (w : ℕ → ℝ) (hist tot : ℕ → ℝ) (d : ℕ) : FR :=
  fdiv (hist (T - d)) (∑ t ∈ Finset.range (T - d), w (d + t) * tot t)

/-- The arithmetic-mean estimate over the `days_back` trailing days
(lines 32-37 / 46-50). -/
noncomputable def rt_arith_est (T dB : ℕ) (w : ℕ → ℝ) (hist tot : ℕ → ℝ) : FR :=
  FR.mean (fun i : Fin dB => rt_ratio T w hist tot (i.val + 1))

/-- The geometric-mean estimate used at the adm2 level (line 62):
`xp.exp(xp.mean(xp.log(Rt), axis=0))`. -/
noncomputable def rt_geom_est (T dB : ℕ) (w : ℕ → ℝ) (hist tot : ℕ → ℝ) : FR :=
  FR.fexp (FR.mean (fun i : Fin dB => FR.flog (rt_ratio T w hist tot (i.val + 1))))

/-- The inputs of `estimate_Rt`: time length, the `days_back` argument
(default 7, and the only value used), the graph data it reads and the two
parameters entering the kernel (`k = params.consts["En"]`,
`Ts = params["Ts"]`). -/
structure RtInput (N M : ℕ) where
  T : ℕ
  days_back : ℕ
  adm1_id : Fin N → Fin M
  Aij : Fin N → Fin N → ℝ
  rolling_inc : ℕ → Fin N → ℝ
  case_report : Fin N → ℝ
  En : ℝ
  Ts : ℝ

/-- `rolling_case_hist` of one input. -/
noncomputable def rt_rch {N M : ℕ} (inp : RtInput N M) : ℕ → Fin N → ℝ :=
  rt_case_hist inp.rolling_inc inp.case_report

/-- `tot_case_hist` of one input. -/
noncomputable def rt_tot {N M : ℕ} (inp : RtInput N M) : ℕ → Fin N → ℝ :=
  rt_tot_hist inp.Aij (rt_rch inp)

/-- The (reversed, transformed) kernel of one input. -/
noncomputable def rt_w {N M : ℕ} (inp : RtInput N M) : ℕ → ℝ :=
  renewal_kernel inp.En inp.Ts inp.T

/-- adm0 rollup `xp.nansum(rolling_case_hist, axis=1)` (line 28; the
inputs are finite so nansum is the sum). -/
noncomputable def rt_hist0 {N M : ℕ} (inp : RtInput N M) : ℕ → ℝ :=
  fun t => ∑ n, rt_rch inp t n

/-- adm0 rollup of `tot_case_hist` (line 29). -/
noncomputable def rt_tot0 {N M : ℕ} (inp : RtInput N M) : ℕ → ℝ :=
  fun t => ∑ n, rt_tot inp t n

/-- adm1 rollup `g_data.sum_adm1(rolling_case_hist.T).T` (line 43). -/
noncomputable def rt_hist1 {N M : ℕ} (inp : RtInput N M) : Fin M → ℕ → ℝ :=
  fun g t => ∑ n, if inp.adm1_id n = g then rt_rch inp t n else 0

/-- adm1 rollup of `tot_case_hist` (line 42). -/
noncomputable def rt_tot1 {N M : ℕ} (inp : RtInput N M) : Fin M → ℕ → ℝ :=
  fun g t => ∑ n, if inp.adm1_id n = g then rt_tot inp t n else 0

/-- The adm0 (coarse) estimate (lines 27-37). -/
noncomputable def rt_adm0 {N M : ℕ} (inp : RtInput N M) : FR :=
  rt_arith_est inp.T inp.days_back (rt_w inp) (rt_hist0 inp) (rt_tot0 inp)

/-- The adm1 (mid-level) estimates (lines 41-50). -/
noncomputable def rt_adm1 {N M : ℕ} (inp : RtInput N M) : Fin M → FR :=
  fun g => rt_arith_est inp.T inp.days_back (rt_w inp) (rt_hist1 inp g) (rt_tot1 inp g)

/-- The adm2 (finest, geometric-mean) estimates (lines 55-62). -/
noncomputable def rt_adm2 {N M : ℕ} (inp : RtInput N M) : Fin N → FR :=
  fun n => rt_geom_est inp.T inp.days_back (rt_w inp) (fun t => rt_rch inp t n)
    (fun t => rt_tot inp t n)

/-- The adm1 trust gate of line 52,
`xp.mean(rolling_case_hist_adm1[-7], axis=0) > 25`: the single row 7 days
before the end of the adm1-rolled history, averaged across the groups — a
scalar, not a per-node trailing mean. -/
noncomputable def rt_gate1 {N M : ℕ} (inp : RtInput N M) : Prop :=
  (∑ g, rt_hist1 inp g (inp.T - 7)) / M > 25

/-- The adm2 trust gate of line 63,
`xp.mean(rolling_case_hist[-7], axis=0) > 25`: the same single row,
averaged across the nodes — again a scalar. -/
noncomputable def rt_gate2 {N M : ℕ} (inp : RtInput N M) : Prop :=
  (∑ n, rt_rch inp (inp.T - 7) n) / N > 25

open Classical in
/-- `estimate_Rt` (lines 4-66): fill every node with the adm0 estimate
(`xp.full`), overwrite with the per-group adm1 estimate where it is finite
and the adm1 scalar gate holds, then overwrite with the per-node adm2
geometric-mean estimate where it is finite and the adm2 scalar gate
holds. -/
noncomputable def estimate_Rt {N M : ℕ} (inp : RtInput N M) : Fin N → FR :=
  let out0 : Fin N → FR := fun _ => rt_adm0 inp
  let out1 : Fin N → FR := fun n =>
    if (rt_adm1 inp (inp.adm1_id n)).isFinite = true ∧ rt_gate1 inp then
      rt_adm1 inp (inp.adm1_id n)
    else out0 n
  fun n =>
    if (rt_adm2 inp n).isFinite = true ∧ rt_gate2 inp then rt_adm2 inp n else out1 n

/-- The per-node adm1 trust gate as claim C4 words it: the trailing-7-day
mean incidence of the node's group exceeds 25. -/
noncomputable def rt_gate1_claimed {N M : ℕ} (inp : RtInput N M) (n : Fin N) : Prop :=
  (∑ d ∈ Finset.range 7, rt_hist1 inp (inp.adm1_id n) (inp.T - 7 + d)) / 7 > 25

/-- The per-node adm2 trust gate as claim C4 words it: the node's
trailing-7-day mean incidence exceeds 25. -/
noncomputable def rt_gate2_claimed {N M : ℕ} (inp : RtInput N M) (n : Fin N) : Prop :=
  (∑ d ∈ Finset.range 7, rt_rch inp (inp.T - 7 + d) n) / 7 > 25

open Classical in
/-- The estimator as claim C4 describes it (for refutation): the same
three estimates and overwrite order, but with the per-node
trailing-7-day-mean trust gates. -/
noncomputable def estimate_Rt_claimed {N M : ℕ} (inp : RtInput N M) : Fin N → FR :=
  fun n =>
    if (rt_adm2 inp n).isFinite = true ∧ rt_gate2_claimed inp n then rt_adm2 inp n
    else if (rt_adm1 inp (inp.adm1_id n)).isFinite = true ∧ rt_gate1_claimed inp n then
      rt_adm1 inp (inp.adm1_id n)
    else rt_adm0 inp

/-- C4 counterexample graph: nodes 0 and 1 form adm1 group 0, node 2 is
group 1. -/
def cex_adm1_id : Fin 3 → Fin 2 := fun n => if n.val ≤ 1 then 0 else 1

/-- C4 counterexample mobility matrix: the identity. -/
noncomputable def cex_Aij : Fin 3 → Fin 3 → ℝ := fun m n => if m = n then 1 else 0

/-- C4 counterexample smoothed incidence (time, node): node 0 has 7 cases
on day 0 and 100 on day 3 (the day 7 steps before the end of the 10-row
history), node 2 has 10 on day 3, everything else is 0. -/
noncomputable def cex_inc : ℕ → Fin 3 → ℝ := fun t n =>
  if n.val = 0 ∧ t = 0 then 7
  else if n.val = 0 ∧ t = 3 then 100
  else if n.val = 2 ∧ t = 3 then 10
  else 0

/-- The C4 counterexample input: T = 10 history rows, days_back = 7,
full case reporting, kernel shape k = En = 1 and mean Ts = 2. -/
noncomputable def cex_rt_input : RtInput 3 2 :=
  ⟨10, 7, cex_adm1_id, cex_Aij, cex_inc, fun _ => 1, 1, 2⟩

/-! ## CalibrationPipeline: `buckyModelCovid.estimate_reporting`
(src/bucky/model/main.py lines 483-560, cache initialisation lines
181-183).

The fixed-per-process graph context and the per-call arguments are
separated; the three `self.*_cfr_reported` baselines (with
`adm1_deaths_reported` stored alongside the adm1 baseline, as in the
source) live in an explicit cache record threaded through the call.
`int(case_lag)` is `Nat.floor` (the delay is nonnegative on real data);
population normalisations use plain real division (spec section 3 makes
the adm1 grouping surjective, so no group is empty); the observed-CFR
quotients, where the source relies on `xp.isfinite` masking, use the float
surrogate `fdiv`/`FR.div`. -/

/-- Graph data read by `estimate_reporting`, fixed for the process. -/
structure ReportingCtx (A N M : ℕ) where
  T : ℕ
  adm1_id : Fin N → Fin M
  Nij : Fin A → Fin N → ℝ
  rolling_cum_cases : ℕ → Fin N → ℝ
  rolling_cum_deaths : ℕ → Fin N → ℝ

/-- Per-call arguments (`cfr`, `params["D_REPORT_TIME"]`, `days_back`,
`min_deaths`); the `reset` call site always passes `days_back = 22`. -/
structure ReportingArgs (A N : ℕ) where
  cfr : Fin A → Fin N → ℝ
  D_REPORT_TIME : Fin A → ℝ
  days_back : ℕ
  min_deaths : ℝ

/-- The cached per-level observed-CFR baselines (`None` after
`load_graph`, lines 181-183). -/
structure ReportingCache (N M : ℕ) where
  adm0_cfr_reported : Option (ℕ → FR)
  adm1_cfr_reported : Option ((Fin M → ℕ → ℝ) × (Fin M → ℕ → FR))
  adm2_cfr_reported : Option (ℕ → Fin N → FR)

/-- `g_data.Nj`. -/
noncomputable def ctxNj {A N M : ℕ} (ctx : ReportingCtx A N M) : Fin N → ℝ :=
  fun n => ∑ a, ctx.Nij a n

/-- `xp.sum(g_data.Nj, axis=0)`. -/
noncomputable def ctxNtot {A N M : ℕ} (ctx : ReportingCtx A N M) : ℝ :=
  ∑ n, ctxNj ctx n

/-- `g_data.adm1_Nj`. -/
noncomputable def ctxAdm1Nj {A N M : ℕ} (ctx : ReportingCtx A N M) : Fin M → ℝ :=
  fun g => ∑ n, if ctx.adm1_id n = g then ctxNj ctx n else 0

/-- Lines 487-492: the population/parameter-weighted death-report delay
(the `case_lag is None` branch always taken at the call site). -/
noncomputable def case_lag {A N M : ℕ} (ctx : ReportingCtx A N M)
    (p : ReportingArgs A N) : ℝ :=
  ∑ a, p.D_REPORT_TIME a * ((∑ n, p.cfr a n * ctx.Nij a n) / ctxNtot ctx) /
    (∑ b, (∑ n, p.cfr b n * ctx.Nij b n) / ctxNtot ctx)

/-- Line 494: `int(case_lag)`. -/
noncomputable def case_lag_int {A N M : ℕ} (ctx : ReportingCtx A N M)
    (p : ReportingArgs A N) : ℕ := ⌊case_lag ctx p⌋₊

/-- Line 497: `case_lag % 1`. -/
noncomputable def case_lag_frac {A N M : ℕ} (ctx : ReportingCtx A N M)
    (p : ReportingArgs A N) : ℝ := case_lag ctx p - case_lag_int ctx p

/-- Line 495: cumulative cases since the start of the rolled history. -/
noncomputable def recent_cum_cases {A N M : ℕ} (ctx : ReportingCtx A N M) :
    ℕ → Fin N → ℝ :=
  fun t n => ctx.rolling_cum_cases t n - ctx.rolling_cum_cases 0 n

/-- Line 496: cumulative deaths since the start of the rolled history. -/
noncomputable def recent_cum_deaths {A N M : ℕ} (ctx : ReportingCtx A N M) :
    ℕ → Fin N → ℝ :=
  fun t n => ctx.rolling_cum_deaths t n - ctx.rolling_cum_deaths 0 n

open Classical in
/-- Lines 498-500: the lagged case window
`frac_last_n_vals(recent_cum_cases, days_back + case_lag_frac,
offset=case_lag_int)` followed by `cases_lagged[0] + cases_lagged[1:]`
when the fractional part is nonzero — note the numpy broadcast adds the
fractional boundary row to every one of the `days_back` rows. -/
noncomputable def cases_lagged {A N M : ℕ} (ctx : ReportingCtx A N M)
    (p : ReportingArgs A N) : ℕ → Fin N → ℝ :=
  fun d n =>
    (if case_lag_frac ctx p ≠ 0 then
        case_lag_frac ctx p *
          recent_cum_cases ctx (ctx.T - case_lag_int ctx p - p.days_back - 1) n
      else 0) +
    recent_cum_cases ctx (ctx.T - case_lag_int ctx p - p.days_back + d) n

/-- Line 505: the adm0 observed-CFR baseline (first call only). -/
noncomputable def adm0_cfr_baseline {A N M : ℕ} (ctx : ReportingCtx A N M)
    (p : ReportingArgs A N) : ℕ → FR :=
  fun d => fdiv (∑ n, recent_cum_deaths ctx (ctx.T - p.days_back + d) n)
    (∑ n, cases_lagged ctx p d n)

/-- Lines 533-540: `adm1_deaths_reported` (first call only). -/
noncomputable def adm1_deaths_baseline {A N M : ℕ} (ctx : ReportingCtx A N M)
    (p : ReportingArgs A N) : Fin M → ℕ → ℝ :=
  fun g d => ∑ n, if ctx.adm1_id n = g then
    recent_cum_deaths ctx (ctx.T - p.days_back + d) n else 0

/-- Lines 541-543: the adm1 observed-CFR baseline (first call only). -/
noncomputable def adm1_cfr_baseline {A N M : ℕ} (ctx : ReportingCtx A N M)
    (p : ReportingArgs A N) : Fin M → ℕ → FR :=
  fun g d => fdiv (adm1_deaths_baseline ctx p g d)
    (∑ n, if ctx.adm1_id n = g then cases_lagged ctx p d n else 0)

/-- Line 554: the adm2 observed-CFR baseline (first call only). -/
noncomputable def adm2_cfr_baseline {A N M : ℕ} (ctx : ReportingCtx A N M)
    (p : ReportingArgs A N) : ℕ → Fin N → FR :=
  fun d n => fdiv (recent_cum_deaths ctx (ctx.T - p.days_back + d) n)
    (cases_lagged ctx p d n)

/-- Line 503: the parameter-implied adm0 CFR. -/
noncomputable def adm0_cfr_param {A N M : ℕ} (ctx : ReportingCtx A N M)
    (p : ReportingArgs A N) : ℝ :=
  ∑ a, (∑ n, p.cfr a n * ctx.Nij a n) / ctxNtot ctx

/-- Lines 522-529: the parameter-implied adm1 CFR. -/
noncomputable def adm1_cfr_param {A N M : ℕ} (ctx : ReportingCtx A N M)
    (p : ReportingArgs A N) : Fin M → ℝ :=
  fun g => (∑ n, if ctx.adm1_id n = g then ∑ a, p.cfr a n * ctx.Nij a n else 0) /
    ctxAdm1Nj ctx g

/-- Line 551: the parameter-implied adm2 CFR. -/
noncomputable def adm2_cfr_param {A N M : ℕ} (ctx : ReportingCtx A N M)
    (p : ReportingArgs A N) : Fin N → ℝ :=
  fun n => ∑ a, p.cfr a n * (ctx.Nij a n / ctxNj ctx n)

open Classical in
/-- The output of a call whose cache is already filled, written directly
as a function of the cached first-call baselines `v0`, `v1`, `v2` and the
current call's parameters: the adm0 fill, overwritten per entry by the
adm1 estimate where its deaths exceed `min_deaths` and the quotient is
finite, overwritten by the adm2 estimate where the quotient is finite and
the node's deaths exceed `min_deaths`. -/
noncomputable def report_from_cache {A N M : ℕ} (ctx : ReportingCtx A N M)
    (p : ReportingArgs A N) (v0 : ℕ → FR) (v1 : (Fin M → ℕ → ℝ) × (Fin M → ℕ → FR))
    (v2 : ℕ → Fin N → FR) : ℕ → Fin N → FR :=
  fun d n =>
    if (FR.div (.fin (adm2_cfr_param ctx p n)) (v2 d n)).isFinite = true ∧
        recent_cum_deaths ctx (ctx.T - p.days_back + d) n > p.min_deaths then
      FR.div (.fin (adm2_cfr_param ctx p n)) (v2 d n)
    else if v1.1 (ctx.adm1_id n) d > p.min_deaths ∧
        (FR.div (.fin (adm1_cfr_param ctx p (ctx.adm1_id n)))
          (v1.2 (ctx.adm1_id n) d)).isFinite = true then
      FR.div (.fin (adm1_cfr_param ctx p (ctx.adm1_id n))) (v1.2 (ctx.adm1_id n) d)
    else FR.div (.fin (adm0_cfr_param ctx p)) (v0 d)

open Classical in
/-- `estimate_reporting` (lines 483-560): each baseline is computed only
when its cache field is `None` and is stored; the case-report output is
assembled from the (possibly just-computed) baselines by the hierarchical
overwrite of lines 519, 545-548 and 555-558. -/
noncomputable def estimate_reporting {A N M : ℕ} (ctx : ReportingCtx A N M)
    (p : ReportingArgs A N) (c : ReportingCache N M) :
    ReportingCache N M × (ℕ → Fin N → FR) :=
  let v0 := match c.adm0_cfr_reported with
    | some v => v
    | none => adm0_cfr_baseline ctx p
  let v1 := match c.adm1_cfr_reported with
    | some v => v
    | none => (adm1_deaths_baseline ctx p, adm1_cfr_baseline ctx p)
  let v2 := match c.adm2_cfr_reported with
    | some v => v
    | none => adm2_cfr_baseline ctx p
  let adm0_case_report : ℕ → FR := fun d => FR.div (.fin (adm0_cfr_param ctx p)) (v0 d)
  let adm1_case_report : ℕ → Fin N → FR := fun d n =>
    FR.div (.fin (adm1_cfr_param ctx p (ctx.adm1_id n))) (v1.2 (ctx.adm1_id n) d)
  let adm2_case_report : ℕ → Fin N → FR := fun d n =>
    FR.div (.fin (adm2_cfr_param ctx p n)) (v2 d n)
  let case_report0 : ℕ → Fin N → FR := fun d _ => adm0_case_report d
  let case_report1 : ℕ → Fin N → FR := fun d n =>
    if v1.1 (ctx.adm1_id n) d > p.min_deaths ∧ (adm1_case_report d n).isFinite = true then
      adm1_case_report d n
    else case_report0 d n
  let case_report2 : ℕ → Fin N → FR := fun d n =>
    if (adm2_case_report d n).isFinite = true ∧
        recent_cum_deaths ctx (ctx.T - p.days_back + d) n > p.min_deaths then
      adm2_case_report d n
    else case_report1 d n
  (⟨some v0, some v1, some v2⟩, case_report2)

end Bucky

namespace Bucky

/-! ## Theorems for the aggregation and rolling layers. -/

/-- C1: `sum_adm1` conserves total mass — the sum of the group-indexed
output equals the sum of the node-indexed input for every numeric input —
and a mid-level group with no member nodes gets exactly the additive zero
(ℚ has no NaN; the float code produces exact `0.0` the same way, because
nothing is ever accumulated into that slot of the `xp.zeros` buffer). -/
theorem sum_adm1_mass_conserved_empty_zero {N M : ℕ} (adm1_id : Fin N → Fin M)
    (arr : Fin N → ℚ) (g : Fin M) (hg : ∀ i, adm1_id i ≠ g) :
    (∑ j, sum_adm1 adm1_id arr j) = (∑ i, arr i) ∧ sum_adm1 adm1_id arr g = 0 := by
  constructor
  · unfold sum_adm1 scatter_add
    simp only [zero_add]
    rw [Finset.sum_comm]
    refine Finset.sum_congr rfl fun i _ => ?_
    simp [Finset.sum_ite_eq]
  · unfold sum_adm1 scatter_add
    simp only [zero_add]
    refine Finset.sum_eq_zero fun i _ => ?_
    simp [hg i]

/-- Witness for C1 (the spec's own example): nodes [5,10,15] all mapped to
group 0 out of two groups; the group array is [30, 0], total mass 30 is
conserved and the empty group 1 holds exact 0. -/
theorem sum_adm1_mass_conserved_empty_zero_witness :
    (∀ i : Fin 3, (fun _ : Fin 3 => (0 : Fin 2)) i ≠ 1) ∧
      ((∑ j, sum_adm1 (fun _ : Fin 3 => (0 : Fin 2)) ![5, 10, 15] j) =
          (∑ i, (![5, 10, 15] : Fin 3 → ℚ) i) ∧
        sum_adm1 (fun _ : Fin 3 => (0 : Fin 2)) ![5, 10, 15] 1 = 0) :=
  ⟨by decide,
   sum_adm1_mass_conserved_empty_zero (fun _ => 0) ![5, 10, 15] 1 (by decide)⟩

/-- Helper: the first difference commutes with the rolling mean (both are
linear in the series and the windows align index-wise). -/
theorem diffT_rolling_mean (w : ℕ) (f : ℕ → ℚ) :
    diffT (rolling_mean w f) = rolling_mean w (diffT f) := by
  funext t
  unfold diffT rolling_mean
  rw [div_sub_div_same]
  congr 1
  rw [← Finset.sum_sub_distrib]
  refine Finset.sum_congr rfl fun s _ => ?_
  rw [add_right_comm]

/-- C7: the memoized smoothed incident series equal the first difference
along the time axis of the 7-day rolling mean of the non-negative-clipped
cumulative series; equivalently (since differencing commutes with the
rolling mean) they are the 7-day rolling mean of the first difference of
the clipped cumulative series — the incidence is not independently
smoothed.  `raw_c` / `raw_d` are the raw per-node case/death series. -/
theorem rolling_inc_is_diff_of_rolled_cum (raw_c raw_d : ℕ → ℚ) :
    rolling_inc raw_c = diffT (rolling_mean 7 (cum_hist raw_c)) ∧
      rolling_inc raw_d = diffT (rolling_mean 7 (cum_hist raw_d)) ∧
      rolling_inc raw_c = rolling_mean 7 (diffT (cum_hist raw_c)) ∧
      rolling_inc raw_d = rolling_mean 7 (diffT (cum_hist raw_d)) :=
  ⟨rfl, rfl, diffT_rolling_mean 7 (cum_hist raw_c), diffT_rolling_mean 7 (cum_hist raw_d)⟩

/-! ## Theorems for the ODE right-hand side. -/

/-- Helper: telescoping sum over the interior stages of an Erlang chain. -/
theorem telescope_fin (n : ℕ) (f : Fin (n + 1) → ℚ) :
    (∑ j : Fin n, (f j.castSucc - f j.succ)) = f 0 - f (Fin.last n) := by
  set F : ℕ → ℚ := fun i => f ⟨min i n, Nat.lt_succ_of_le (min_le_right i n)⟩ with hF
  have h1 : ∀ j : Fin n, f j.castSucc = F j.val := by
    intro j
    simp only [hF]
    congr 1
    exact Fin.ext (by simp [Nat.min_eq_left j.isLt.le])
  have h2 : ∀ j : Fin n, f j.succ = F (j.val + 1) := by
    intro j
    simp only [hF]
    congr 1
    exact Fin.ext (by simp [Nat.min_eq_left j.isLt])
  calc (∑ j : Fin n, (f j.castSucc - f j.succ))
      = ∑ j : Fin n, (F j.val - F (j.val + 1)) :=
        Finset.sum_congr rfl fun j _ => by rw [h1 j, h2 j]
    _ = ∑ i ∈ Finset.range n, (F i - F (i + 1)) :=
        Fin.sum_univ_eq_sum_range (fun i => F i - F (i + 1)) n
    _ = F 0 - F n := Finset.sum_range_sub' F n
    _ = f 0 - f (Fin.last n) := by
        have e0 : F 0 = f 0 := by
          simp only [hF]; congr 1; exact Fin.ext (by simp)
        have e1 : F n = f (Fin.last n) := by
          simp only [hF]; congr 1; exact Fin.ext (by simp [Fin.last])
        rw [e0, e1]

/-- Helper: the total outflow of an Erlang chain equals its inflow minus
the rate times its last stage. -/
theorem chain_sum (n : ℕ) (f : Fin (n + 1) → ℚ) (σ c : ℚ) :
    (∑ j, chain (c - σ * f 0) (fun j' => σ * (f j'.castSucc - f j'.succ)) j) =
      c - σ * f (Fin.last n) := by
  unfold chain
  rw [Fin.sum_cons, ← Finset.mul_sum, telescope_fin n f]
  ring

/-- C2: if the effective fatality fraction is 0 for every age group and
node then, at every strictly in-bounds state (so that neither the clip of
line 582 nor the one-sided derivative clamp of lines 674-676 is active),
the returned derivatives of all compartments except D — excluding the pure
accumulators incH and incC — sum to zero over the whole tensor: the flows
telescope along every Erlang chain and every inter-compartment flow
appears once positively and once negatively, so total population over
those compartments is a conserved quantity of the right-hand side. -/
theorem RHS_func_conserves_population {en im rhn A N : ℕ} (par : Params A N)
    (Nij : Fin A → Fin N → ℚ) (Aij : Fin N → Fin N → ℚ) (Cij : Fin A → Fin A → ℚ)
    (y : BState en im rhn A N) (hF : ∀ a n, par.F_eff a n = 0)
    (hy : ∀ c a n, 0 < y c a n ∧ y c a n < 1) :
    nonD_total (RHS_func par Nij Aij Cij y) = 0 := by
  have hclamp : ∀ c a n, RHS_func par Nij Aij Cij y c a n =
      RHS_unclamped par Nij Aij Cij y c a n := by
    intro c a n
    unfold RHS_func
    rw [if_neg, if_neg]
    · rintro ⟨h1, -⟩; exact absurd (hy c a n).2 (not_lt.mpr h1)
    · rintro ⟨h0, -⟩; exact absurd (hy c a n).1 (not_lt.mpr h0)
  have hclip : clipState y = y := by
    funext c a n
    unfold clipState clip01
    have h := hy c a n
    rw [max_eq_right h.1.le, min_eq_right h.2.le]
  unfold nonD_total
  refine Finset.sum_eq_zero fun a _ => Finset.sum_eq_zero fun n _ => ?_
  simp only [hclamp]
  unfold RHS_unclamped
  rw [hclip]
  have hE : (∑ j, RHS_core par Nij Aij Cij y (.E j) a n) =
      par.BETA a n * beta_mat Nij Aij Cij par.rel_inf_asym y a n -
        ((en : ℚ) + 1) * par.SIGMA a n * y (.E (Fin.last en)) a n := by
    simp only [RHS_core]
    exact chain_sum en (fun j => y (.E j) a n) _ _
  have hIa : (∑ j, RHS_core par Nij Aij Cij y (.Ia j) a n) =
      (1 - par.SYM_FRAC a n) * (((en : ℚ) + 1) * par.SIGMA a n) * y (.E (Fin.last en)) a n -
        ((im : ℚ) + 1) * par.GAMMA a n * y (.Ia (Fin.last im)) a n := by
    simp only [RHS_core]
    exact chain_sum im (fun j => y (.Ia j) a n) _ _
  have hI : (∑ j, RHS_core par Nij Aij Cij y (.I j) a n) =
      par.SYM_FRAC a n * (1 - par.H a n) * (((en : ℚ) + 1) * par.SIGMA a n) *
          y (.E (Fin.last en)) a n -
        ((im : ℚ) + 1) * par.GAMMA a n * y (.I (Fin.last im)) a n := by
    simp only [RHS_core]
    exact chain_sum im (fun j => y (.I j) a n) _ _
  have hIc : (∑ j, RHS_core par Nij Aij Cij y (.Ic j) a n) =
      par.SYM_FRAC a n * par.H a n * (((en : ℚ) + 1) * par.SIGMA a n) *
          y (.E (Fin.last en)) a n -
        ((im : ℚ) + 1) * par.GAMMA_H a n * y (.Ic (Fin.last im)) a n := by
    simp only [RHS_core]
    exact chain_sum im (fun j => y (.Ic j) a n) _ _
  have hRh : (∑ j, RHS_core par Nij Aij Cij y (.Rh j) a n) =
      ((im : ℚ) + 1) * par.GAMMA_H a n * y (.Ic (Fin.last im)) a n -
        ((rhn : ℚ) + 1) * par.THETA a n * y (.Rh (Fin.last rhn)) a n := by
    simp only [RHS_core]
    exact chain_sum rhn (fun j => y (.Rh j) a n) _ _
  rw [hE, hIa, hI, hIc, hRh]
  simp only [RHS_core]
  rw [hF a n]
  ring

/-- Witness for C2 at a concrete one-compartment-stage, one-age, one-node
instance with an interior state. -/
theorem RHS_func_conserves_population_witness :
    (∀ a n, par1.F_eff a n = 0) ∧
      (∀ (c : Comp 0 0 0) (a n : Fin 1), 0 < y1 c a n ∧ y1 c a n < 1) ∧
      nonD_total (RHS_func par1 Nij1 Aij1 Cij1 y1) = 0 :=
  ⟨fun _ _ => rfl, fun _ _ _ => ⟨by norm_num [y1], by norm_num [y1]⟩,
   RHS_func_conserves_population par1 Nij1 Aij1 Cij1 y1 (fun _ _ => rfl)
     (fun _ _ _ => ⟨by norm_num [y1], by norm_num [y1]⟩)⟩

/-- C3: the returned derivative relates to the model derivative of the
clipped state (`RHS_unclamped`, which clips to [0,1] before evaluating) as
follows, for every component: a component whose incoming state value is at
or below 0 with negative computed derivative, or at or above 1 with
positive computed derivative, is forced to exactly 0; a component whose
state value is strictly inside (0,1) keeps the unmodified model
derivative. -/
theorem RHS_func_clamp_spec {en im rhn A N : ℕ} (par : Params A N)
    (Nij : Fin A → Fin N → ℚ) (Aij : Fin N → Fin N → ℚ) (Cij : Fin A → Fin A → ℚ)
    (y : BState en im rhn A N) (c : Comp en im rhn) (a : Fin A) (n : Fin N) :
    (y c a n ≤ 0 → RHS_unclamped par Nij Aij Cij y c a n < 0 →
        RHS_func par Nij Aij Cij y c a n = 0) ∧
      (1 ≤ y c a n → 0 < RHS_unclamped par Nij Aij Cij y c a n →
        RHS_func par Nij Aij Cij y c a n = 0) ∧
      (0 < y c a n → y c a n < 1 →
        RHS_func par Nij Aij Cij y c a n = RHS_unclamped par Nij Aij Cij y c a n) := by
  refine ⟨fun h1 h2 => ?_, fun h1 h2 => ?_, fun h1 h2 => ?_⟩
  · unfold RHS_func
    rw [if_pos ⟨h1, h2⟩]
  · have hn1 : ¬(y c a n ≤ 0 ∧ RHS_unclamped par Nij Aij Cij y c a n < 0) := by
      rintro ⟨-, hneg⟩; exact absurd h2 (not_lt.mpr hneg.le)
    unfold RHS_func
    rw [if_neg hn1, if_pos ⟨h1, h2⟩]
  · have hn1 : ¬(y c a n ≤ 0 ∧ RHS_unclamped par Nij Aij Cij y c a n < 0) := by
      rintro ⟨hle, -⟩; exact absurd h1 (not_lt.mpr hle)
    have hn2 : ¬(1 ≤ y c a n ∧ 0 < RHS_unclamped par Nij Aij Cij y c a n) := by
      rintro ⟨hge, -⟩; exact absurd h2 (not_lt.mpr hge)
    unfold RHS_func
    rw [if_neg hn1, if_neg hn2]

/-- Witness for C3: at the concrete interior state the susceptible
component keeps its unmodified model derivative. -/
theorem RHS_func_clamp_spec_witness :
    0 < y1 .S 0 0 ∧ y1 .S 0 0 < 1 ∧
      RHS_func par1 Nij1 Aij1 Cij1 y1 .S 0 0 = RHS_unclamped par1 Nij1 Aij1 Cij1 y1 .S 0 0 :=
  ⟨by norm_num [y1], by norm_num [y1],
   (RHS_func_clamp_spec par1 Nij1 Aij1 Cij1 y1 .S 0 0).2.2 (by norm_num [y1])
     (by norm_num [y1])⟩

/-! ## Theorems for the accept/reject orchestration. -/

/-- Helper: everything in the accepted ensemble came from an accepted
(exception-free) trial. -/
theorem run_multiple_mem {α : Type} (trial : ℕ → Except SimulationException α) :
    ∀ fuel need k x, x ∈ run_multiple trial need k fuel → ∃ j, trial j = .ok x := by
  intro fuel
  induction fuel with
  | zero => intro need k x hx; simp [run_multiple] at hx
  | succ fuel ih =>
    intro need k x hx
    match need with
    | 0 => simp [run_multiple] at hx
    | need + 1 =>
      rw [run_multiple] at hx
      cases htk : trial k with
      | ok f =>
        rw [htk] at hx
        rcases List.mem_cons.mp hx with rfl | hx'
        · exact ⟨k, htk⟩
        · exact ih need (k + 1) x hx'
      | error e =>
        rw [htk] at hx
        exact ih (need + 1) (k + 1) x hx

/-- C5: with rejection enabled, a trial whose mean reconstructed incident
deaths over the first 3 simulated days exceed twice the trailing 7-day
historical mean (or are more than twice below it) raises the trial-scoped
exception in postprocessing; with rejection disabled the same trajectory
is returned unchanged.  In the seed loop an erroring seed contributes
nothing and the loop moves on to the next seed, and every member of the
accepted ensemble is the value of a successfully postprocessed trial. -/
theorem postprocess_death_band_rejection {N : ℕ} (g : GraphHist N)
    (outD : ℕ → Fin N → ℚ) {α : Type} (trial : ℕ → Except SimulationException α)
    (need k fuel : ℕ) (e : SimulationException) (x : α)
    (hband : init_inc_death_mean (daily_deaths g outD) > 2 * hist_inc_death_mean g ∨
      2 * init_inc_death_mean (daily_deaths g outD) < hist_inc_death_mean g)
    (hk : trial k = .error e) (hx : x ∈ run_multiple trial need k fuel) :
    postprocess_run true g outD = .error .mk ∧
      postprocess_run false g outD = .ok (daily_deaths g outD) ∧
      run_multiple trial (need + 1) k (fuel + 1) = run_multiple trial (need + 1) (k + 1) fuel ∧
      ∃ j, trial j = .ok x := by
  refine ⟨?_, ?_, ?_, run_multiple_mem trial fuel need k x hx⟩
  · unfold postprocess_run
    rw [if_pos ⟨rfl, by simpa [inc_death_rejection_fac] using hband⟩]
  · unfold postprocess_run
    rw [if_neg (by rintro ⟨h, -⟩; cases h)]
  · rw [run_multiple, hk]

/-- Witness for C5: a concrete one-node history and trajectory violating
the band (mean 10 vs history mean 1), and a seed stream whose first seed
errors while the second is accepted. -/
theorem postprocess_death_band_rejection_witness :
    (init_inc_death_mean (daily_deaths gW outDW) > 2 * hist_inc_death_mean gW ∨
        2 * init_inc_death_mean (daily_deaths gW outDW) < hist_inc_death_mean gW) ∧
      (postprocess_run true gW outDW = .error .mk ∧
        postprocess_run false gW outDW = .ok (daily_deaths gW outDW) ∧
        run_multiple trialW 2 0 3 = run_multiple trialW 2 1 2 ∧
        ∃ j, trialW j = .ok 7) := by
  have hband : init_inc_death_mean (daily_deaths gW outDW) > 2 * hist_inc_death_mean gW ∨
      2 * init_inc_death_mean (daily_deaths gW outDW) < hist_inc_death_mean gW := by
    left
    unfold init_inc_death_mean hist_inc_death_mean daily_deaths outDW gW prepend_deaths
    simp [Finset.sum_range_succ]
    norm_num
  exact ⟨hband,
    postprocess_death_band_rejection gW outDW trialW 1 0 2 .mk 7 hband rfl (by decide)⟩

/-- C6: the validation step of `reset` raises the trial-scoped exception
if and only if the assembled initial state contains a non-finite value;
the exception propagates out of the single trial (`run_once`), and at the
retry boundary it is caught: the erroring seed is skipped and the loop
continues with the next seed, so it never escapes past one trial. -/
theorem reset_raises_iff_nonfinite (st : List FR) {α : Type}
    (trial : ℕ → Except SimulationException α) (need k fuel : ℕ)
    (e : SimulationException) (hk : trial k = .error e) :
    (reset st = .error .mk ↔ ∃ v ∈ st, v.isFinite = false) ∧
      (∀ f : List FR → List FR, (∃ v ∈ st, v.isFinite = false) →
        run_once st f = .error .mk) ∧
      run_multiple trial (need + 1) k (fuel + 1) = run_multiple trial (need + 1) (k + 1) fuel := by
  have hiff : reset st = .error .mk ↔ ∃ v ∈ st, v.isFinite = false := by
    unfold reset
    by_cases h : st.any (fun v => !v.isFinite) = true
    · rw [if_pos h]
      simp only [List.any_eq_true, Bool.not_eq_true'] at h
      simpa using h
    · rw [if_neg h]
      simp only [List.any_eq_true, Bool.not_eq_true'] at h
      constructor
      · intro hcontra; cases hcontra
      · intro hex; exact absurd hex (by simpa using h)
  refine ⟨hiff, fun f hex => ?_, by rw [run_multiple, hk]⟩
  unfold run_once
  rw [hiff.mpr hex]
  rfl

/-- Witness for C6: a state containing NaN raises; the erroring first seed
of the concrete stream is skipped. -/
theorem reset_raises_iff_nonfinite_witness :
    reset [FR.nan] = .error .mk ∧
      run_multiple trialW 1 0 1 = run_multiple trialW 1 1 0 :=
  ⟨(reset_raises_iff_nonfinite [FR.nan] trialW 0 0 0 .mk rfl).1.mpr
      ⟨.nan, by simp, rfl⟩,
   (reset_raises_iff_nonfinite [FR.nan] trialW 0 0 0 .mk rfl).2.2⟩

/-! ## Theorems for `truncnorm`. -/

/-- Helper: whenever the rejection loop returns, every element passes the
elementwise validity test. -/
theorem truncnorm_loop_bounds {n : ℕ} (fresh : ℕ → Fin n → ℚ) (a_min a_max : Option ℚ) :
    ∀ fuel ret0 r ret, truncnorm_loop fresh a_min a_max ret0 r fuel = some ret →
      ∀ i, truncnorm_ok a_min a_max (ret i) = true := by
  intro fuel
  induction fuel with
  | zero => intro ret0 r ret h; simp [truncnorm_loop] at h
  | succ fuel ih =>
    intro ret0 r ret h
    rw [truncnorm_loop] at h
    split at h
    · next hall =>
        cases h
        intro i
        rw [List.all_eq_true] at hall
        exact hall _ ((List.mem_ofFn _ _).mpr ⟨i, rfl⟩)
    · exact ih _ _ ret h

/-- C10: whenever `truncnorm` returns, every element of the returned array
lies strictly between `a_min` and `a_max` (a `None` bound imposes no
constraint, matching ±inf); in particular, with the CFR/CHR relative-risk
jitter's `a_min = 1e-6` every returned element is strictly positive. -/
theorem truncnorm_strict_bounds {n : ℕ} (init : Fin n → ℚ) (fresh : ℕ → Fin n → ℚ)
    (a_min a_max : Option ℚ) (fuel : ℕ) (ret : Fin n → ℚ)
    (h : truncnorm init fresh a_min a_max fuel = some ret) :
    ∀ i, (∀ lo, a_min = some lo → lo < ret i) ∧ (∀ hi, a_max = some hi → ret i < hi) ∧
      (a_min = some (1 / 1000000) → 0 < ret i) := by
  have hok := truncnorm_loop_bounds fresh a_min a_max fuel init 0 ret h
  intro i
  have h2 := hok i
  unfold truncnorm_ok at h2
  rw [Bool.and_eq_true] at h2
  have hlo : ∀ lo, a_min = some lo → lo < ret i := by
    intro lo hmin
    have := h2.1
    rw [hmin] at this
    exact of_decide_eq_true this
  refine ⟨hlo, ?_, fun hmin => lt_trans (by norm_num) (hlo _ hmin)⟩
  intro hi hmax
  have := h2.2
  rw [hmax] at this
  exact of_decide_eq_true this

/-- Witness for C10 at the jitter call's bounds `a_min = 1e-6`,
`a_max = None`: the loop accepts the first draw and its element is
strictly positive. -/
theorem truncnorm_strict_bounds_witness :
    truncnorm initW freshW (some (1 / 1000000)) none 1 = some initW ∧
      (1 / 1000000 : ℚ) < initW 0 ∧ 0 < initW 0 := by
  have hret : truncnorm initW freshW (some (1 / 1000000)) none 1 = some initW := by
    have hcond : ((List.ofFn fun i => truncnorm_ok (some (1 / 1000000)) none (initW i)).all
        fun b => b) = true := by
      simp [List.ofFn_succ, truncnorm_ok, initW]
      norm_num
    unfold truncnorm
    rw [truncnorm_loop, if_pos hcond]
  exact ⟨hret,
    ((truncnorm_strict_bounds initW freshW (some (1 / 1000000)) none 1 initW hret) 0).1 _ rfl,
    ((truncnorm_strict_bounds initW freshW (some (1 / 1000000)) none 1 initW hret) 0).2.2 rfl⟩

/-! ## Theorems for the calibrated ascertainment draw. -/

/-- Helper: the clipped mode of the `case_reporting` draw always lies
between the clipped bounds `a = clip(0.8*cr, 0.2, None)` and
`b = clip(1.2*cr, None, 1.0)` (in the sense that `(mu-a)*(b-mu) ≥ 0`,
which also covers the order-reversed case `b < a` that occurs for
`cr < 1/6` and `cr > 5/4`). -/
theorem mu_between (cr : ℝ) :
    0 ≤ (min 1 (max 0.2 cr) - max 0.2 (0.8 * cr)) *
      (min 1 (1.2 * cr) - min 1 (max 0.2 cr)) := by
  simp only [max_def, min_def]
  split_ifs <;> nlinarith

/-- Helper: with `gamma = 50`, a mode between the bounds, unequal bounds
and a uniform draw in [0,1], the mPERT sample lies between the bounds —
whatever their order. -/
theorem approx_mPERT_sample_mem (mu a b u : ℝ) (hu0 : 0 ≤ u) (hu1 : u ≤ 1)
    (hab : a ≠ b) (hprod : 0 ≤ (mu - a) * (b - mu)) :
    min a b ≤ approx_mPERT_sample mu a b 50 u ∧
      approx_mPERT_sample mu a b 50 u ≤ max a b := by
  unfold approx_mPERT_sample approx_betaincinv kumaraswamy_invcdf
  set s := (mu - a) / (b - a) with hsdef
  set s2 := (b - mu) / (b - a) with hs2def
  have hs : 0 ≤ s ∧ s ≤ 1 := by
    rw [hsdef]
    rcases mul_nonneg_iff.mp hprod with ⟨hx, hy⟩ | ⟨hx, hy⟩
    · rcases lt_or_gt_of_ne hab with hlt | hgt
      · have h2 : 0 < b - a := by linarith
        exact ⟨div_nonneg (by linarith) h2.le, by rw [div_le_one h2]; linarith⟩
      · exfalso; linarith
    · rcases lt_or_gt_of_ne hab with hlt | hgt
      · exfalso; linarith
      · have h2 : 0 < a - b := by linarith
        have heq : (mu - a) / (b - a) = (a - mu) / (a - b) := by
          rw [show a - mu = -(mu - a) by ring, show a - b = -(b - a) by ring, neg_div_neg_eq]
        rw [heq]
        exact ⟨div_nonneg (by linarith) h2.le, by rw [div_le_one h2]; linarith⟩
  have hba : b - a ≠ 0 := sub_ne_zero.mpr (Ne.symm hab)
  have hs2 : s2 = 1 - s := by
    rw [hs2def, hsdef]
    field_simp
  have halp1 : (1 : ℝ) ≤ 1 + 50 * s := by nlinarith [hs.1]
  have hsum : (1 + 50 * s) + (1 + 50 * s2) - 2 = 50 := by rw [hs2]; ring
  have hbp : 0 < ((1 + 50 * s - 1) ^ (1 - (1 + 50 * s)) *
      ((1 + 50 * s) + (1 + 50 * s2) - 2) ^ (1 + 50 * s) + 1) / (1 + 50 * s) := by
    apply div_pos _ (by linarith)
    have h1 : (0 : ℝ) ≤ (1 + 50 * s - 1) ^ (1 - (1 + 50 * s)) :=
      Real.rpow_nonneg (by nlinarith [hs.1]) _
    have h2 : (0 : ℝ) ≤ ((1 + 50 * s) + (1 + 50 * s2) - 2) ^ (1 + 50 * s) := by
      rw [hsum]; exact Real.rpow_nonneg (by norm_num) _
    nlinarith
  set bp := ((1 + 50 * s - 1) ^ (1 - (1 + 50 * s)) *
      ((1 + 50 * s) + (1 + 50 * s2) - 2) ^ (1 + 50 * s) + 1) / (1 + 50 * s) with hbpdef
  have key : 0 ≤ (1 - (1 - u) ^ (1 / bp)) ^ (1 / (1 + 50 * s)) ∧
      (1 - (1 - u) ^ (1 / bp)) ^ (1 / (1 + 50 * s)) ≤ 1 := by
    have hp0 : 0 ≤ (1 - u) ^ (1 / bp) := Real.rpow_nonneg (by linarith) _
    have hp1 : (1 - u) ^ (1 / bp) ≤ 1 :=
      Real.rpow_le_one (by linarith) (by linarith) (one_div_pos.mpr hbp).le
    exact ⟨Real.rpow_nonneg (by linarith) _,
      Real.rpow_le_one (by linarith) (by linarith) (by positivity)⟩
  rcases le_total a b with hle | hle
  · rw [min_eq_left hle, max_eq_right hle]
    constructor <;> nlinarith [key.1, key.2]
  · rw [min_eq_right hle, max_eq_left hle]
    constructor <;> nlinarith [key.1, key.2]

/-- C8 amended: every entry of the calibrated ascertainment rate drawn in
`reset` lies between `clip(0.8*cr, 0.2, None)` and
`clip(1.2*cr, None, 1.0)` (in either order), for every uniform draw in
[0,1] and whenever the two clipped bounds differ (when they coincide the
float code divides 0 by 0 and produces NaN).  This gives the claimed
interval [0.2, 1.0] exactly when the underlying estimate `cr` lies in
[1/6, 5/4]; outside that range entries escape the interval (see the
counterexample). -/
theorem case_reporting_draw_in_band (cr u : ℝ) (hu0 : 0 ≤ u) (hu1 : u ≤ 1)
    (hab : max 0.2 (0.8 * cr) ≠ min 1 (1.2 * cr)) :
    min (max 0.2 (0.8 * cr)) (min 1 (1.2 * cr)) ≤ case_reporting_draw cr u ∧
      case_reporting_draw cr u ≤ max (max 0.2 (0.8 * cr)) (min 1 (1.2 * cr)) := by
  unfold case_reporting_draw
  exact approx_mPERT_sample_mem _ _ _ u hu0 hu1 hab (mu_between cr)

/-- Witness for the amended C8 at `cr = 1/2`, `u = 1/2` (bounds 0.4 and
0.6). -/
theorem case_reporting_draw_in_band_witness :
    (max (0.2 : ℝ) (0.8 * (1 / 2)) ≠ min 1 (1.2 * (1 / 2))) ∧
      (min (max (0.2 : ℝ) (0.8 * (1 / 2))) (min 1 (1.2 * (1 / 2))) ≤
          case_reporting_draw (1 / 2) (1 / 2) ∧
        case_reporting_draw (1 / 2) (1 / 2) ≤
          max (max (0.2 : ℝ) (0.8 * (1 / 2))) (min 1 (1.2 * (1 / 2)))) := by
  have hab : max (0.2 : ℝ) (0.8 * (1 / 2)) ≠ min 1 (1.2 * (1 / 2)) := by
    norm_num [max_def, min_def]
  exact ⟨hab, case_reporting_draw_in_band (1 / 2) (1 / 2) (by norm_num) (by norm_num) hab⟩

/-- C8 counterexample: with the underlying reporting estimate `cr = 1/10`
(a legal output of `estimate_reporting`) and the legal uniform draw
`u = 1 - 2⁻⁵¹ ∈ [0,1)`, the drawn `case_reporting` entry is 0.16 < 0.2:
the clipped upper bound `b = 1.2*cr = 0.12` falls below the clipped lower
bound `a = 0.2`, so the sample `(b-a)*alp3 + a` leaves [0.2, 1.0]. -/
theorem case_reporting_draw_below_band :
    0 ≤ u_cex ∧ u_cex < 1 ∧ case_reporting_draw (1 / 10) u_cex < 1 / 5 := by
  have hp : (0 : ℝ) < (1 / 2 : ℝ) ^ (51 : ℝ) := Real.rpow_pos_of_pos (by norm_num) _
  have hl : (1 / 2 : ℝ) ^ (51 : ℝ) ≤ 1 :=
    Real.rpow_le_one (by norm_num) (by norm_num) (by norm_num)
  refine ⟨by simp only [u_cex]; linarith, by simp only [u_cex]; linarith, ?_⟩
  unfold case_reporting_draw
  have hmu : min (1 : ℝ) (max 0.2 (1 / 10)) = 0.2 := by norm_num
  have ha : max (0.2 : ℝ) (0.8 * (1 / 10)) = 0.2 := by norm_num
  have hb : min (1 : ℝ) (1.2 * (1 / 10)) = 0.12 := by norm_num
  rw [hmu, ha, hb]
  unfold approx_mPERT_sample
  have halp1 : 1 + (50 : ℝ) * ((0.2 - 0.2) / (0.12 - 0.2)) = 1 := by norm_num
  have halp2 : 1 + (50 : ℝ) * ((0.12 - 0.2) / (0.12 - 0.2)) = 51 := by norm_num
  rw [halp1, halp2]
  unfold approx_betaincinv
  have hbp : (((1 : ℝ) - 1) ^ ((1 : ℝ) - 1) * ((1 : ℝ) + 51 - 2) ^ (1 : ℝ) + 1) / 1 = 51 := by
    rw [show ((1 : ℝ) - 1) = 0 by norm_num, show ((1 : ℝ) + 51 - 2) = 50 by norm_num,
      Real.rpow_zero, Real.rpow_one]
    norm_num
  rw [hbp]
  unfold kumaraswamy_invcdf
  have h1u : (1 : ℝ) - u_cex = (1 / 2 : ℝ) ^ (51 : ℝ) := by simp only [u_cex]; ring
  rw [h1u]
  have hpow : ((1 / 2 : ℝ) ^ (51 : ℝ)) ^ ((1 : ℝ) / 51) = 1 / 2 := by
    rw [← Real.rpow_mul (by norm_num)]
    norm_num
  rw [hpow]
  rw [show (1 : ℝ) - 1 / 2 = 1 / 2 by norm_num]
  rw [show (1 : ℝ) / 1 = 1 by norm_num, Real.rpow_one]
  norm_num

/-! ## Theorems for `estimate_Rt`. -/

@[simp] theorem FR.fin_add_fin (x y : ℝ) : (FR.fin x + FR.fin y : FR) = .fin (x + y) := rfl

@[simp] theorem FR.ninf_add_fin (x : ℝ) : (FR.ninf + FR.fin x : FR) = .ninf := rfl

@[simp] theorem FR.fin_add_ninf (x : ℝ) : (FR.fin x + FR.ninf : FR) = .ninf := rfl

@[simp] theorem FR.ninf_add_ninf : (FR.ninf + FR.ninf : FR) = .ninf := rfl

/-- C4 amended: `estimate_Rt` fills every node with the coarse (adm0)
arithmetic-mean renewal estimate, overwrites with the mid-level (adm1)
arithmetic-mean estimate exactly where that estimate is finite and the
scalar adm1 gate holds — the across-group mean of the smoothed incidence
on the single day 7 steps before the end of the history exceeds 25 — and
finally overwrites with the finest (adm2) geometric-mean estimate (mean of
logs, then exponentiate) where it is finite and the analogous scalar
across-node gate on that same day holds.  The gates are scalars shared by
all nodes, not per-node trailing-7-day means. -/
theorem estimate_Rt_scalar_gate_layering {N M : ℕ} (inp : RtInput N M) (n : Fin N) :
    estimate_Rt inp n =
      if (rt_adm2 inp n).isFinite = true ∧ (∑ m, rt_rch inp (inp.T - 7) m) / N > 25 then
        rt_adm2 inp n
      else if (rt_adm1 inp (inp.adm1_id n)).isFinite = true ∧
          (∑ g, rt_hist1 inp g (inp.T - 7)) / M > 25 then
        rt_adm1 inp (inp.adm1_id n)
      else rt_adm0 inp := rfl

theorem cex_w_pos (t : ℕ) : 0 < renewal_kernel 1 2 10 t := by
  unfold renewal_kernel
  have hx : 0 ≤ renewal_x (10 - 1 - t) := by
    unfold renewal_x
    split_ifs with h
    · exact le_refl 0
    · have h1 : 1 ≤ (10 - 1 - t : ℕ) := Nat.one_le_iff_ne_zero.mpr h
      have h2 : (1 : ℝ) ≤ ((10 - 1 - t : ℕ) : ℝ) := by exact_mod_cast h1
      linarith
  have hv1 : renewal_w_raw 1 2 (10 - 1 - t) = Real.exp (-renewal_x (10 - 1 - t) / 2) / 2 := by
    unfold renewal_w_raw
    rw [Real.Gamma_one]
    rw [show ((2 : ℝ) / 1) = 2 by norm_num, show ((1 : ℝ) - 1) = 0 by norm_num]
    rw [Real.rpow_zero, Real.rpow_one]
    ring
  rw [hv1]
  have he0 : 0 < Real.exp (-renewal_x (10 - 1 - t) / 2) := Real.exp_pos _
  have he1 : Real.exp (-renewal_x (10 - 1 - t) / 2) ≤ 1 := by
    rw [Real.exp_le_one_iff]
    linarith
  apply div_pos
  · linarith
  · linarith

theorem cex_rch_eq (t : ℕ) (n : Fin 3) : rt_rch cex_rt_input t n = cex_inc t n := by
  unfold rt_rch rt_case_hist cex_rt_input
  simp

theorem cex_tot_eq (t : ℕ) (n : Fin 3) : rt_tot cex_rt_input t n = cex_inc t n := by
  unfold rt_tot rt_tot_hist
  have : ∀ m, cex_rt_input.Aij m n * rt_rch cex_rt_input t m =
      (if m = n then cex_inc t m else 0) := by
    intro m
    rw [cex_rch_eq]
    show cex_Aij m n * cex_inc t m = _
    unfold cex_Aij
    split_ifs <;> ring
  rw [Finset.sum_congr rfl fun m _ => this m]
  simp [Finset.sum_ite_eq']

theorem cex_inc_nonneg (t : ℕ) (n : Fin 3) : 0 ≤ cex_inc t n := by
  unfold cex_inc
  split_ifs <;> norm_num

theorem den_pos_of (w h : ℕ → ℝ) (m : ℕ) (hm : 0 < m) (hw : ∀ t, 0 < w t)
    (hh : ∀ t, 0 ≤ h t) (h0 : 0 < h 0) (d : ℕ) :
    0 < ∑ t ∈ Finset.range m, w (d + t) * h t := by
  refine Finset.sum_pos' (fun t _ => mul_nonneg (hw _).le (hh t))
    ⟨0, Finset.mem_range.mpr hm, ?_⟩
  simpa using mul_pos (hw (d + 0)) h0

theorem rt_ratio_zero_num (T : ℕ) (w hist tot : ℕ → ℝ) (d : ℕ)
    (hnum : hist (T - d) = 0)
    (hden : (∑ t ∈ Finset.range (T - d), w (d + t) * tot t) ≠ 0) :
    rt_ratio T w hist tot d = .fin 0 := by
  unfold rt_ratio fdiv
  rw [if_pos hden, hnum, zero_div]

theorem rt_ratio_div (T : ℕ) (w hist tot : ℕ → ℝ) (d : ℕ)
    (hden : (∑ t ∈ Finset.range (T - d), w (d + t) * tot t) ≠ 0) :
    rt_ratio T w hist tot d =
      .fin (hist (T - d) / ∑ t ∈ Finset.range (T - d), w (d + t) * tot t) := by
  unfold rt_ratio fdiv
  rw [if_pos hden]

theorem FR.flog_fin_zero : FR.flog (.fin 0) = .ninf := by
  unfold FR.flog
  norm_num

theorem FR.flog_fin_pos (x : ℝ) (hx : 0 < x) : FR.flog (.fin x) = .fin (Real.log x) := by
  show (if 0 < x then FR.fin (Real.log x) else if x = 0 then FR.ninf else FR.nan) = _
  rw [if_pos hx]


theorem cex_adm2_node0 : rt_adm2 cex_rt_input 0 = .fin 0 := by
  have hrch0 : (fun t => rt_rch cex_rt_input t 0) = fun t => cex_inc t 0 :=
    funext fun t => cex_rch_eq t 0
  have htot0 : (fun t => rt_tot cex_rt_input t 0) = fun t => cex_inc t 0 :=
    funext fun t => cex_tot_eq t 0
  unfold rt_adm2
  rw [hrch0, htot0]
  show rt_geom_est 10 7 (renewal_kernel 1 2 10) (fun t => cex_inc t 0)
    (fun t => cex_inc t 0) = .fin 0
  set w := renewal_kernel 1 2 10 with hwdef
  set h : ℕ → ℝ := fun t => cex_inc t 0 with hhdef
  have hh_nonneg : ∀ t, 0 ≤ h t := fun t => cex_inc_nonneg t 0
  have hh0 : 0 < h 0 := by
    show (0 : ℝ) < cex_inc 0 0
    rw [show cex_inc 0 0 = 7 from rfl]; norm_num
  have hwp : ∀ t, 0 < w t := fun t => cex_w_pos t
  have hdz : ∀ d : ℕ, 0 < 10 - d → (∑ t ∈ Finset.range (10 - d), w (d + t) * h t) ≠ 0 :=
    fun d hd => (den_pos_of w h (10 - d) hd hwp hh_nonneg hh0 d).ne'
  have e0 : FR.flog (rt_ratio 10 w h h (((0 : Fin 7) : ℕ) + 1)) = FR.ninf := by
    rw [show (((0 : Fin 7) : ℕ) + 1) = 1 from rfl,
      rt_ratio_zero_num 10 w h h 1 (show h (10 - 1) = 0 from rfl) (hdz 1 (by norm_num))]
    exact FR.flog_fin_zero
  have e1 : FR.flog (rt_ratio 10 w h h (((1 : Fin 7) : ℕ) + 1)) = FR.ninf := by
    rw [show (((1 : Fin 7) : ℕ) + 1) = 2 from rfl,
      rt_ratio_zero_num 10 w h h 2 (show h (10 - 2) = 0 from rfl) (hdz 2 (by norm_num))]
    exact FR.flog_fin_zero
  have e2 : FR.flog (rt_ratio 10 w h h (((2 : Fin 7) : ℕ) + 1)) = FR.ninf := by
    rw [show (((2 : Fin 7) : ℕ) + 1) = 3 from rfl,
      rt_ratio_zero_num 10 w h h 3 (show h (10 - 3) = 0 from rfl) (hdz 3 (by norm_num))]
    exact FR.flog_fin_zero
  have e3 : FR.flog (rt_ratio 10 w h h (((3 : Fin 7) : ℕ) + 1)) = FR.ninf := by
    rw [show (((3 : Fin 7) : ℕ) + 1) = 4 from rfl,
      rt_ratio_zero_num 10 w h h 4 (show h (10 - 4) = 0 from rfl) (hdz 4 (by norm_num))]
    exact FR.flog_fin_zero
  have e4 : FR.flog (rt_ratio 10 w h h (((4 : Fin 7) : ℕ) + 1)) = FR.ninf := by
    rw [show (((4 : Fin 7) : ℕ) + 1) = 5 from rfl,
      rt_ratio_zero_num 10 w h h 5 (show h (10 - 5) = 0 from rfl) (hdz 5 (by norm_num))]
    exact FR.flog_fin_zero
  have e5 : FR.flog (rt_ratio 10 w h h (((5 : Fin 7) : ℕ) + 1)) = FR.ninf := by
    rw [show (((5 : Fin 7) : ℕ) + 1) = 6 from rfl,
      rt_ratio_zero_num 10 w h h 6 (show h (10 - 6) = 0 from rfl) (hdz 6 (by norm_num))]
    exact FR.flog_fin_zero
  have hq7 : 0 < h (10 - 7) / ∑ t ∈ Finset.range (10 - 7), w (7 + t) * h t := by
    apply div_pos
    · rw [show h (10 - 7) = cex_inc 3 0 from rfl, show cex_inc 3 0 = (100 : ℝ) from rfl]
      norm_num
    · exact den_pos_of w h (10 - 7) (by norm_num) hwp hh_nonneg hh0 7
  have e6 : FR.flog (rt_ratio 10 w h h (((6 : Fin 7) : ℕ) + 1)) =
      FR.fin (Real.log (h (10 - 7) / ∑ t ∈ Finset.range (10 - 7), w (7 + t) * h t)) := by
    rw [show (((6 : Fin 7) : ℕ) + 1) = 7 from rfl, rt_ratio_div 10 w h h 7 (hdz 7 (by norm_num))]
    exact FR.flog_fin_pos _ hq7
  have hsum : FR.sumF (fun i : Fin 7 => FR.flog (rt_ratio 10 w h h (i.val + 1))) = .ninf := by
    unfold FR.sumF
    rw [Fin.sum_univ_seven]
    rw [e0, e1, e2, e3, e4, e5, e6]
    simp
  unfold rt_geom_est
  unfold FR.mean
  rw [hsum]
  rfl

theorem cex_gate2 : rt_gate2 cex_rt_input := by
  unfold rt_gate2
  show (∑ n, rt_rch cex_rt_input (10 - 7) n) / (3 : ℕ) > 25
  rw [Fin.sum_univ_three, cex_rch_eq, cex_rch_eq, cex_rch_eq]
  rw [show cex_inc (10 - 7) 0 = 100 from rfl, show cex_inc (10 - 7) 1 = 0 from rfl,
    show cex_inc (10 - 7) 2 = 10 from rfl]
  norm_num

theorem cex_code_node0 : estimate_Rt cex_rt_input 0 = .fin 0 := by
  have hfin : (rt_adm2 cex_rt_input 0).isFinite = true := by
    rw [cex_adm2_node0]; rfl
  simp only [estimate_Rt]
  rw [if_pos ⟨hfin, cex_gate2⟩]
  exact cex_adm2_node0

theorem cex_adm0_pos : ∃ q : ℝ, 0 < q ∧ rt_adm0 cex_rt_input = .fin q := by
  have hH : rt_hist0 cex_rt_input = fun t => ∑ n, cex_inc t n := by
    funext t; unfold rt_hist0; exact Finset.sum_congr rfl fun n _ => cex_rch_eq t n
  have hT0 : rt_tot0 cex_rt_input = fun t => ∑ n, cex_inc t n := by
    funext t; unfold rt_tot0; exact Finset.sum_congr rfl fun n _ => cex_tot_eq t n
  unfold rt_adm0
  rw [hH, hT0]
  show ∃ q, 0 < q ∧ rt_arith_est 10 7 (renewal_kernel 1 2 10)
    (fun t => ∑ n, cex_inc t n) (fun t => ∑ n, cex_inc t n) = .fin q
  set w := renewal_kernel 1 2 10 with hwdef
  set H : ℕ → ℝ := fun t => ∑ n, cex_inc t n with hHdef
  have hwp : ∀ t, 0 < w t := fun t => cex_w_pos t
  have hHnn : ∀ t, 0 ≤ H t := fun t => Finset.sum_nonneg fun n _ => cex_inc_nonneg t n
  have hrow0 : ∀ t : ℕ, t ≠ 0 → t ≠ 3 → H t = 0 := by
    intro t h0 h3
    show (∑ n, cex_inc t n) = 0
    rw [Fin.sum_univ_three]
    unfold cex_inc
    simp [h0, h3, show ((0 : Fin 3) : ℕ) = 0 from rfl, show ((1 : Fin 3) : ℕ) = 1 from rfl,
      show ((2 : Fin 3) : ℕ) = 2 from rfl]
  have hH0 : 0 < H 0 := by
    show (0 : ℝ) < ∑ n, cex_inc 0 n
    rw [Fin.sum_univ_three, show cex_inc 0 0 = 7 from rfl, show cex_inc 0 1 = 0 from rfl,
      show cex_inc 0 2 = 0 from rfl]
    norm_num
  have hH3 : 0 < H (10 - 7) := by
    show (0 : ℝ) < ∑ n, cex_inc (10 - 7) n
    rw [Fin.sum_univ_three, show cex_inc (10 - 7) 0 = 100 from rfl,
      show cex_inc (10 - 7) 1 = 0 from rfl, show cex_inc (10 - 7) 2 = 10 from rfl]
    norm_num
  have hdz : ∀ d : ℕ, 0 < 10 - d → (∑ t ∈ Finset.range (10 - d), w (d + t) * H t) ≠ 0 :=
    fun d hd => (den_pos_of w H (10 - d) hd hwp hHnn hH0 d).ne'
  have e0 : rt_ratio 10 w H H (((0 : Fin 7) : ℕ) + 1) = FR.fin 0 := by
    rw [show (((0 : Fin 7) : ℕ) + 1) = 1 from rfl]
    exact rt_ratio_zero_num 10 w H H 1 (hrow0 (10 - 1) (by norm_num) (by norm_num))
      (hdz 1 (by norm_num))
  have e1 : rt_ratio 10 w H H (((1 : Fin 7) : ℕ) + 1) = FR.fin 0 := by
    rw [show (((1 : Fin 7) : ℕ) + 1) = 2 from rfl]
    exact rt_ratio_zero_num 10 w H H 2 (hrow0 (10 - 2) (by norm_num) (by norm_num))
      (hdz 2 (by norm_num))
  have e2 : rt_ratio 10 w H H (((2 : Fin 7) : ℕ) + 1) = FR.fin 0 := by
    rw [show (((2 : Fin 7) : ℕ) + 1) = 3 from rfl]
    exact rt_ratio_zero_num 10 w H H 3 (hrow0 (10 - 3) (by norm_num) (by norm_num))
      (hdz 3 (by norm_num))
  have e3 : rt_ratio 10 w H H (((3 : Fin 7) : ℕ) + 1) = FR.fin 0 := by
    rw [show (((3 : Fin 7) : ℕ) + 1) = 4 from rfl]
    exact rt_ratio_zero_num 10 w H H 4 (hrow0 (10 - 4) (by norm_num) (by norm_num))
      (hdz 4 (by norm_num))
  have e4 : rt_ratio 10 w H H (((4 : Fin 7) : ℕ) + 1) = FR.fin 0 := by
    rw [show (((4 : Fin 7) : ℕ) + 1) = 5 from rfl]
    exact rt_ratio_zero_num 10 w H H 5 (hrow0 (10 - 5) (by norm_num) (by norm_num))
      (hdz 5 (by norm_num))
  have e5 : rt_ratio 10 w H H (((5 : Fin 7) : ℕ) + 1) = FR.fin 0 := by
    rw [show (((5 : Fin 7) : ℕ) + 1) = 6 from rfl]
    exact rt_ratio_zero_num 10 w H H 6 (hrow0 (10 - 6) (by norm_num) (by norm_num))
      (hdz 6 (by norm_num))
  have e6 : rt_ratio 10 w H H (((6 : Fin 7) : ℕ) + 1) =
      FR.fin (H (10 - 7) / ∑ t ∈ Finset.range (10 - 7), w (7 + t) * H t) := by
    rw [show (((6 : Fin 7) : ℕ) + 1) = 7 from rfl]
    exact rt_ratio_div 10 w H H 7 (hdz 7 (by norm_num))
  have hsum : FR.sumF (fun i : Fin 7 => rt_ratio 10 w H H (i.val + 1)) =
      FR.fin (H (10 - 7) / ∑ t ∈ Finset.range (10 - 7), w (7 + t) * H t) := by
    unfold FR.sumF
    rw [Fin.sum_univ_seven]
    rw [e0, e1, e2, e3, e4, e5, e6]
    simp
  have hq : 0 < (H (10 - 7) / ∑ t ∈ Finset.range (10 - 7), w (7 + t) * H t) / (7 : ℕ) := by
    apply div_pos
    · exact div_pos hH3 (den_pos_of w H (10 - 7) (by norm_num) hwp hHnn hH0 7)
    · norm_num
  refine ⟨_, hq, ?_⟩
  unfold rt_arith_est
  unfold FR.mean
  rw [hsum]

theorem cex_hist1_0 (t : ℕ) : rt_hist1 cex_rt_input 0 t = cex_inc t 0 + cex_inc t 1 := by
  unfold rt_hist1
  rw [Fin.sum_univ_three]
  rw [if_pos (show cex_rt_input.adm1_id 0 = 0 by decide),
    if_pos (show cex_rt_input.adm1_id 1 = 0 by decide),
    if_neg (show ¬cex_rt_input.adm1_id 2 = 0 by decide)]
  rw [cex_rch_eq, cex_rch_eq]
  ring

theorem cex_not_gate2c : ¬ rt_gate2_claimed cex_rt_input 0 := by
  unfold rt_gate2_claimed
  intro hg
  have hsum : (∑ d ∈ Finset.range 7, rt_rch cex_rt_input (cex_rt_input.T - 7 + d) 0) =
      100 := by
    rw [Finset.sum_congr rfl fun d _ => cex_rch_eq (cex_rt_input.T - 7 + d) 0]
    rw [show cex_rt_input.T = 10 from rfl]
    rw [Finset.sum_range_succ, Finset.sum_range_succ, Finset.sum_range_succ,
      Finset.sum_range_succ, Finset.sum_range_succ, Finset.sum_range_succ,
      Finset.sum_range_succ, Finset.sum_range_zero]
    rw [show cex_inc (10 - 7 + 0) 0 = 100 from rfl, show cex_inc (10 - 7 + 1) 0 = 0 from rfl,
      show cex_inc (10 - 7 + 2) 0 = 0 from rfl, show cex_inc (10 - 7 + 3) 0 = 0 from rfl,
      show cex_inc (10 - 7 + 4) 0 = 0 from rfl, show cex_inc (10 - 7 + 5) 0 = 0 from rfl,
      show cex_inc (10 - 7 + 6) 0 = 0 from rfl]
    norm_num
  rw [hsum] at hg
  norm_num at hg

theorem cex_not_gate1c : ¬ rt_gate1_claimed cex_rt_input 0 := by
  unfold rt_gate1_claimed
  intro hg
  rw [show cex_rt_input.adm1_id 0 = 0 from rfl] at hg
  have hsum : (∑ d ∈ Finset.range 7, rt_hist1 cex_rt_input 0 (cex_rt_input.T - 7 + d)) =
      100 := by
    rw [Finset.sum_congr rfl fun d _ => cex_hist1_0 (cex_rt_input.T - 7 + d)]
    rw [show cex_rt_input.T = 10 from rfl]
    rw [Finset.sum_range_succ, Finset.sum_range_succ, Finset.sum_range_succ,
      Finset.sum_range_succ, Finset.sum_range_succ, Finset.sum_range_succ,
      Finset.sum_range_succ, Finset.sum_range_zero]
    rw [show cex_inc (10 - 7 + 0) 0 = 100 from rfl, show cex_inc (10 - 7 + 0) 1 = 0 from rfl,
      show cex_inc (10 - 7 + 1) 0 = 0 from rfl, show cex_inc (10 - 7 + 1) 1 = 0 from rfl,
      show cex_inc (10 - 7 + 2) 0 = 0 from rfl, show cex_inc (10 - 7 + 2) 1 = 0 from rfl,
      show cex_inc (10 - 7 + 3) 0 = 0 from rfl, show cex_inc (10 - 7 + 3) 1 = 0 from rfl,
      show cex_inc (10 - 7 + 4) 0 = 0 from rfl, show cex_inc (10 - 7 + 4) 1 = 0 from rfl,
      show cex_inc (10 - 7 + 5) 0 = 0 from rfl, show cex_inc (10 - 7 + 5) 1 = 0 from rfl,
      show cex_inc (10 - 7 + 6) 0 = 0 from rfl, show cex_inc (10 - 7 + 6) 1 = 0 from rfl]
    norm_num
  rw [hsum] at hg
  norm_num at hg

theorem cex_claimed_node0 : ∃ q : ℝ, 0 < q ∧ estimate_Rt_claimed cex_rt_input 0 = .fin q := by
  obtain ⟨q, hq, h0⟩ := cex_adm0_pos
  refine ⟨q, hq, ?_⟩
  unfold estimate_Rt_claimed
  rw [if_neg (fun hh => cex_not_gate2c hh.2), if_neg (fun hh => cex_not_gate1c hh.2)]
  exact h0

/-- C4 counterexample: on the concrete 3-node input the code's output at
node 0 differs from the output prescribed by the claim's per-node
trailing-7-day-mean gates.  The scalar gates fire (group means (100+10)/2
and node means (100+0+10)/3 of day -7 both exceed 25) so the code returns
the adm2 geometric-mean value 0 at node 0, while the claimed per-node
trailing means are 100/7 < 25, so the claimed output keeps the strictly
positive adm0 fill. -/
theorem estimate_Rt_gate_counterexample :
    estimate_Rt cex_rt_input 0 ≠ estimate_Rt_claimed cex_rt_input 0 := by
  obtain ⟨q, hq, hcl⟩ := cex_claimed_node0
  rw [cex_code_node0, hcl]
  intro hcon
  injection hcon with h
  exact absurd h.symm (ne_of_gt hq)

/-! ## Theorems for `estimate_reporting`. -/

/-- C9: the per-level observed-CFR baselines are computed on the first
`estimate_reporting` call after graph load (cache all `None`) and stored;
a later call with a filled cache leaves every cached baseline unchanged —
whatever its per-trial parameters `q` — and its output is computed from
the cached values rather than from recomputed baselines; in particular a
second call right after the first reuses exactly the first call's
baselines. -/
theorem estimate_reporting_baselines_cached {A N M : ℕ} (ctx : ReportingCtx A N M)
    (p q : ReportingArgs A N) (v0 : ℕ → FR)
    (v1 : (Fin M → ℕ → ℝ) × (Fin M → ℕ → FR)) (v2 : ℕ → Fin N → FR) :
    (estimate_reporting ctx p ⟨none, none, none⟩).1 =
        ⟨some (adm0_cfr_baseline ctx p),
          some (adm1_deaths_baseline ctx p, adm1_cfr_baseline ctx p),
          some (adm2_cfr_baseline ctx p)⟩ ∧
      (estimate_reporting ctx q ⟨some v0, some v1, some v2⟩).1 = ⟨some v0, some v1, some v2⟩ ∧
      (estimate_reporting ctx q ⟨some v0, some v1, some v2⟩).2 =
        report_from_cache ctx q v0 v1 v2 ∧
      (estimate_reporting ctx q (estimate_reporting ctx p ⟨none, none, none⟩).1).1 =
        (estimate_reporting ctx p ⟨none, none, none⟩).1 ∧
      (estimate_reporting ctx q (estimate_reporting ctx p ⟨none, none, none⟩).1).2 =
        report_from_cache ctx q (adm0_cfr_baseline ctx p)
          (adm1_deaths_baseline ctx p, adm1_cfr_baseline ctx p)
          (adm2_cfr_baseline ctx p) :=
  ⟨rfl, rfl, rfl, rfl, rfl⟩

end Bucky
